import Mathlib

/-!
Verification development for the TalkToTube transcript pipeline
(`talktotube/utils/text.py`, `talktotube/utils/retrieval.py`,
`talktotube/agents/qa.py`).

The Python code is shallowly embedded below: strings are Lean `String`s
(manipulated through their `List Char` data to mirror Python character
operations exactly), Python floats are modelled as exact rationals (for
times, durations, overlap fractions) or reals (for similarity scores,
which involve square roots), machine behaviour such as Python's negative
slice `text[:n]` and the truthiness of `x or default` is modelled
explicitly.  Network collaborators (HuggingFace embedding and text
generation calls) are modelled as explicit inputs: the embedding a query
would receive and the `Except`-valued outcome of the generation call.
Recursion that the source expresses with `while` loops is embedded with
an explicit fuel argument that is always instantiated with a provably
sufficient value, so every definition is executable.
-/

namespace TalkToTube

/-- Python `\s` on the ASCII range (space, tab, newline, carriage return,
vertical tab, form feed), used by `re.sub(r"\s+", " ", ...)` and `str.strip()`. -/
def isPySpace (c : Char) : Bool :=
  c == ' ' || c == '\t' || c == '\n' || c == '\r' || c == '\x0b' || c == '\x0c'

/-- Python `str.strip()` on character lists. -/
def pyStrip (l : List Char) : List Char :=
  ((l.dropWhile isPySpace).reverse.dropWhile isPySpace).reverse

/-- Truthiness of `s.strip()` in Python: true iff some character is not whitespace. -/
def hasNonSpace (l : List Char) : Bool :=
  l.any (fun c => ! isPySpace c)

/-- Does `big` start with `small` (character-list level)? -/
def startsWithL : List Char → List Char → Bool
  | _, [] => true
  | [], _ :: _ => false
  | a :: as, b :: bs => a == b && startsWithL as bs

/-- Python substring containment `small in big` (character-list level). -/
def containsL : List Char → List Char → Bool
  | big, small =>
    startsWithL big small ||
      match big with
      | [] => false
      | _ :: t => containsL t small

/-- Python `small in big` on strings. -/
def strIn (small big : String) : Bool := containsL big.data small.data

/-- Python `sep.join(parts)` at the character-list level. -/
def joinWith (sep : List Char) : List (List Char) → List Char
  | [] => []
  | x :: rest =>
    match rest with
    | [] => x
    | _ :: _ => x ++ sep ++ joinWith sep rest

/-- Python `sep.join(parts)` on strings. -/
def joinStr (sep : String) (xs : List String) : String :=
  ⟨joinWith sep.data (xs.map String.data)⟩

/-- Python `str(n)` for a natural number, via fuel-based digit extraction. -/
def natDigitsRev : ℕ → ℕ → List Char
  | 0, _ => []
  | fuel + 1, n =>
    let d := Char.ofNat (n % 10 + 48)
    if n < 10 then [d] else d :: natDigitsRev fuel (n / 10)

/-- Python `str(n)` for a natural number. -/
def natToStr (n : ℕ) : String := ⟨(natDigitsRev (n + 1) n).reverse⟩

/-- Python `str(z)` for an integer. -/
def intToStr (z : ℤ) : String :=
  if z < 0 then "-" ++ natToStr z.natAbs else natToStr z.toNat

/-- Python `"a\nb".split("\n")` at the character-list level. -/
def splitNL : List Char → List (List Char)
  | [] => [[]]
  | c :: rest =>
    match splitNL rest with
    | [] => [[c]]
    | h :: t => if c == '\n' then [] :: h :: t else (c :: h) :: t

/- Configuration constants from `talktotube/config.py`. -/
namespace Config

def CHUNK_SIZE_TOKENS : ℕ := 1000

def CHUNK_OVERLAP_PERCENT : ℚ := 0.125

def SIMILARITY_THRESHOLD : ℝ := 0.35

def TOP_K_CHUNKS : ℕ := 5

def MAX_CONTEXT_LENGTH : ℕ := 2000

end Config

/-- The `TranscriptChunk` dataclass of `utils/text.py`. -/
structure TranscriptChunk where
  text : String
  start_time : ℚ
  end_time : ℚ
  chunk_id : ℕ
  deriving DecidableEq

/-- A raw transcript segment (dict with `text`, `start`, `duration`). -/
structure Segment where
  text : String
  start : ℚ
  duration : ℚ
  deriving DecidableEq

/-- Python `f"{n:02d}"`: zero-pad a one-digit nonnegative number to two digits. -/
def pad2 (n : ℤ) : String :=
  if 0 ≤ n ∧ n < 10 then "0" ++ intToStr n else intToStr n

/-- Python float modulo `s % m` for a positive modulus: `s - m * floor (s / m)`. -/
def pyMod (s m : ℚ) : ℚ := s - m * ⌊s / m⌋

/-- `format_timestamp` of `utils/text.py`: seconds to `MM:SS` or `HH:MM:SS`.
`hours = int(s // 3600)`, `minutes = int((s % 3600) // 60)`, `secs = int(s % 60)`;
every `int()` argument here is nonnegative, so `int` truncation is `floor`. -/
def format_timestamp (s : ℚ) : String :=
  let hours : ℤ := ⌊s / 3600⌋
  let minutes : ℤ := ⌊pyMod s 3600 / 60⌋
  let secs : ℤ := ⌊pyMod s 60⌋
  if 0 < hours then pad2 hours ++ (":") ++ pad2 minutes ++ (":") ++ pad2 secs
  else pad2 minutes ++ (":") ++ pad2 secs

/-- `TranscriptChunk.get_citation`: `"[{start}–{end}]"`. -/
def get_citation (c : TranscriptChunk) : String :=
  "[" ++ format_timestamp c.start_time ++ "–" ++ format_timestamp c.end_time ++ "]"

/-- Find the non-greedy closing delimiter of `re.sub(r"\[.*?\]", ...)`-style
patterns: the first occurrence of `cl` with no newline before it (Python `.`
does not match a newline); returns the remaining suffix after the match. -/
def findClose (cl : Char) : List Char → Option (List Char)
  | [] => none
  | c :: rest =>
    if c == cl then some rest
    else if c == '\n' then none
    else findClose cl rest

/-- One `re.sub(r"op.*?cl", "", text)` pass, scanning left to right,
with an explicit fuel argument (structurally decreasing; the wrapper
passes `length + 1`, which is always sufficient). -/
def removeSpansF (op cl : Char) : ℕ → List Char → List Char
  | 0, l => l
  | _, [] => []
  | fuel + 1, c :: rest =>
    if c == op then
      match findClose cl rest with
      | some rest' => removeSpansF op cl fuel rest'
      | none => c :: removeSpansF op cl fuel rest
    else c :: removeSpansF op cl fuel rest

/-- `re.sub(r"op.*?cl", "", text)` with all the fuel it can need. -/
def removeSpans (op cl : Char) (l : List Char) : List Char :=
  removeSpansF op cl (l.length + 1) l

/-- `re.sub(r"\s+", " ", text)`: collapse every whitespace run to one space
(fuel-based; the wrapper passes `length + 1`). -/
def collapseWsF : ℕ → List Char → List Char
  | 0, l => l
  | _, [] => []
  | fuel + 1, c :: rest =>
    if isPySpace c then ' ' :: collapseWsF fuel (rest.dropWhile isPySpace)
    else c :: collapseWsF fuel rest

/-- `re.sub(r"\s+", " ", text)` with all the fuel it can need. -/
def collapseWs (l : List Char) : List Char := collapseWsF (l.length + 1) l

/-- `clean_transcript_text` of `utils/text.py`. -/
def clean_transcript_text (text : String) : String :=
  if text = "" then ""
  else
    let t := text.data
    let t := removeSpans '[' ']' t
    let t := removeSpans '(' ')' t
    let t := removeSpans '<' '>' t
    let t := removeSpans '♪' '♪' t
    let t := pyStrip (collapseWs t)
    if t.length < 3 then "" else ⟨t⟩

/-- The accumulator loop of `merge_short_segments`: `cur` is the current
accumulator, the list is the remaining input. -/
def mergeAux (minD : ℚ) (cur : Segment) : List Segment → List Segment
  | [] => [cur]
  | next :: rest =>
    if cur.duration < minD then
      mergeAux minD
        ⟨cur.text ++ " " ++ next.text, cur.start,
          max (next.start + next.duration) (cur.start + cur.duration) - cur.start⟩
        rest
    else cur :: mergeAux minD next rest

/-- `merge_short_segments` of `utils/text.py`. -/
def merge_short_segments (segments : List Segment) (min_duration : ℚ) : List Segment :=
  match segments with
  | [] => []
  | s :: rest => mergeAux min_duration s rest

/-- The per-segment cleaning step of `normalize_transcript`: strip, drop if
empty, clean, drop if empty. -/
def normalizeSegments (transcript_data : List Segment) : List Segment :=
  transcript_data.filterMap fun seg =>
    let t : String := ⟨pyStrip seg.text.data⟩
    if t = "" then none
    else
      let c := clean_transcript_text t
      if c = "" then none
      else some ⟨c, seg.start, seg.duration⟩

/-- The output lines of `normalize_transcript` (before joining with newlines). -/
def normalizeLines (transcript_data : List Segment) : List String :=
  (merge_short_segments (normalizeSegments transcript_data) 2).map fun s =>
    "[" ++ format_timestamp s.start ++ "] " ++ s.text

/-- `normalize_transcript` of `utils/text.py`. -/
def normalize_transcript (transcript_data : List Segment) : String :=
  if transcript_data = [] then "" else joinStr ("\n") (normalizeLines transcript_data)

/-- `estimate_tokens` of `utils/text.py`: `len(text) // 4`. -/
def estimate_tokens (text : String) : ℕ := text.length / 4

/-- A transcript line parsed back by `chunk_transcript`: the regex captures
`start_time` (seconds) and the trailing `text`. -/
structure Line where
  text : String
  start_time : ℚ
  deriving DecidableEq

/-- Default line used with `List.getD` (never reached under the proved bounds). -/
def dfltLine : Line := ⟨"", 0⟩

/-- Numeric value of a digit character. -/
def digitVal (c : Char) : ℕ := c.toNat - 48

/-- Match `\d{1,2}:` with the regex engine's backtracking: try two digits
followed by `:`, else one digit followed by `:`. -/
def parseN1 : List Char → Option (ℕ × List Char)
  | c1 :: rest1 =>
    if c1.isDigit then
      match rest1 with
      | c2 :: rest2 =>
        if c2.isDigit then
          match rest2 with
          | ':' :: rest3 => some (10 * digitVal c1 + digitVal c2, rest3)
          | _ => none
        else if c2 == ':' then some (digitVal c1, rest2)
        else none
      | [] => none
    else none
  | [] => none

/-- Match `\d{2}` exactly. -/
def parse2 : List Char → Option (ℕ × List Char)
  | c1 :: c2 :: rest =>
    if c1.isDigit && c2.isDigit then some (10 * digitVal c1 + digitVal c2, rest)
    else none
  | _ => none

/-- The trailing `\s*(.*)` of the line regex. -/
def tailText (l : List Char) : String :=
  ⟨(l.dropWhile isPySpace).takeWhile (fun c => c ≠ '\n')⟩

/-- `re.match(r"\[(\d{1,2}:\d{2}(?::\d{2})?)\]\s*(.*)", line)` combined with
`parse_timestamp` on the captured group, as used by `chunk_transcript`. -/
def matchLine (line : List Char) : Option Line :=
  match line with
  | '[' :: r0 =>
    match parseN1 r0 with
    | none => none
    | some (n1, r1) =>
      match parse2 r1 with
      | none => none
      | some (n2, r2) =>
        match r2 with
        | ':' :: r3 =>
          match parse2 r3 with
          | some (n3, r4) =>
            match r4 with
            | ']' :: r5 => some ⟨tailText r5, ((n1 * 3600 + n2 * 60 + n3 : ℕ) : ℚ)⟩
            | _ => none
          | none => none
        | ']' :: r3 => some ⟨tailText r3, ((n1 * 60 + n2 : ℕ) : ℚ)⟩
        | _ => none
  | _ => none

/-- The line-parsing phase of `chunk_transcript`: strip the input, split on
newlines, keep the lines the regex matches (blank lines never match). -/
def parseLines (transcript_text : String) : List Line :=
  (splitNL (pyStrip transcript_text.data)).filterMap matchLine

/-- The inner accumulation loop of `chunk_transcript`: starting from line `i`
with position `j` and running token estimate `cur`, advance while
`j < len(segments) and cur < B`, adding line `j` when
`cur + tokens(j) <= B or j == i` (the chunk is still empty exactly when
`j = i`).  Fuel-based; the wrapper passes `length - i`, which suffices. -/
def accEndF (segs : List Line) (B i : ℕ) : ℕ → ℕ → ℕ → ℕ
  | 0, j, _ => j
  | fuel + 1, j, cur =>
    if j < segs.length ∧ cur < B then
      let est := estimate_tokens (segs.getD j dfltLine).text
      if cur + est ≤ B ∨ j = i then accEndF segs B i fuel (j + 1) (cur + est) else j
    else j

/-- The index one past the last line the inner loop of `chunk_transcript`
accumulates when starting at line `i`. -/
def accEnd (segs : List Line) (B i : ℕ) : ℕ :=
  accEndF segs B i (segs.length - i) i 0

/-- Number of overlap lines: `max(1, int(len(chunk_text_parts) * overlap_percent))`. -/
def overlapCount (len : ℕ) (ov : ℚ) : ℕ :=
  max 1 (Int.toNat ⌊(len : ℚ) * ov⌋)

/-- The outer `while i < len(segments)` loop of `chunk_transcript`,
instrumented to record each window `[i, j)` together with the chunk it
emitted (`none` when `chunk_text.strip()` was falsy and the chunk was
skipped).  Fuel-based; the wrapper passes `length`, which suffices because
the start index strictly increases. -/
def chunkLoopF (segs : List Line) (B : ℕ) (ov : ℚ) :
    ℕ → ℕ → ℕ → List (ℕ × ℕ × Option TranscriptChunk)
  | 0, _, _ => []
  | fuel + 1, i, cid =>
    if i < segs.length then
      let j := accEnd segs B i
      let texts := ((segs.drop i).take (j - i)).map Line.text
      let ctext : String := joinStr (" ") texts
      let emit := hasNonSpace ctext.data
      let startT := (segs.getD i dfltLine).start_time
      let endT := if i < j then (segs.getD (j - 1) dfltLine).start_time else startT
      let c : Option TranscriptChunk := if emit then some ⟨ctext, startT, endT, cid⟩ else none
      let i' := max (i + 1) (j - overlapCount (j - i) ov)
      (i, j, c) :: chunkLoopF segs B ov fuel i' (if emit then cid + 1 else cid)
    else []

/-- All windows the chunking loop visits, each with its emitted chunk. -/
def chunkWindows (segs : List Line) (B : ℕ) (ov : ℚ) :
    List (ℕ × ℕ × Option TranscriptChunk) :=
  chunkLoopF segs B ov segs.length 0 0

/-- The chunk list `chunk_transcript` builds from already-parsed lines. -/
def chunkSegments (segs : List Line) (B : ℕ) (ov : ℚ) : List TranscriptChunk :=
  (chunkWindows segs B ov).filterMap fun w => w.2.2

/-- `chunk_transcript` of `utils/text.py`, with the
`chunk_size or Config.CHUNK_SIZE_TOKENS` / `overlap_percent or ...`
defaulting of falsy arguments made explicit. -/
def chunk_transcript (transcript_text : String) (chunk_size : ℕ) (overlap_percent : ℚ) :
    List TranscriptChunk :=
  let B := if chunk_size = 0 then Config.CHUNK_SIZE_TOKENS else chunk_size
  let ov := if overlap_percent = 0 then Config.CHUNK_OVERLAP_PERCENT else overlap_percent
  chunkSegments (parseLines transcript_text) B ov

/-- Sum of the token estimates of lines `[i, t)`, the vocabulary in which the
windowing claims are stated. -/
def tokSum (segs : List Line) (i t : ℕ) : ℕ :=
  ((List.range' i (t - i)).map (fun k => estimate_tokens (segs.getD k dfltLine).text)).sum

/-- Modelled from the claim wording (not the source), for comparison with
`accEnd`: greedily accumulate lines while the running token estimate stays at
or under the budget, always including at least the first line. -/
def claimGreedyEndF (segs : List Line) (B i : ℕ) : ℕ → ℕ → ℕ → ℕ
  | 0, j, _ => j
  | fuel + 1, j, tot =>
    if j < segs.length then
      let est := estimate_tokens (segs.getD j dfltLine).text
      if tot + est ≤ B ∨ j = i then claimGreedyEndF segs B i fuel (j + 1) (tot + est) else j
    else j

/-- Modelled from the claim wording: the end of the greedy window starting at `i`. -/
def claimGreedyEnd (segs : List Line) (B i : ℕ) : ℕ :=
  claimGreedyEndF segs B i (segs.length - i) i 0

/-- Modelled from the claim wording: the chunking loop with the claim's
accumulation rule, all other steps as in the source. -/
def claimChunkLoopF (segs : List Line) (B : ℕ) (ov : ℚ) :
    ℕ → ℕ → ℕ → List TranscriptChunk
  | 0, _, _ => []
  | fuel + 1, i, cid =>
    if i < segs.length then
      let j := claimGreedyEnd segs B i
      let texts := ((segs.drop i).take (j - i)).map Line.text
      let ctext : String := joinStr (" ") texts
      let emit := hasNonSpace ctext.data
      let startT := (segs.getD i dfltLine).start_time
      let endT := if i < j then (segs.getD (j - 1) dfltLine).start_time else startT
      let rest := claimChunkLoopF segs B ov fuel (max (i + 1) (j - overlapCount (j - i) ov))
        (if emit then cid + 1 else cid)
      if emit then ⟨ctext, startT, endT, cid⟩ :: rest else rest
    else []

/-- Modelled from the claim wording: the chunk list under the claim's greedy rule. -/
def claimChunks (segs : List Line) (B : ℕ) (ov : ℚ) : List TranscriptChunk :=
  claimChunkLoopF segs B ov segs.length 0 0

/-- `np.dot` on embedding vectors, modelled over exact rationals. -/
def dotQ (v1 v2 : List ℚ) : ℚ := (List.zipWith (· * ·) v1 v2).sum

/-- Sum of squares of a vector, so that `np.linalg.norm v = sqrt (sumSq v)`. -/
def sumSq (v : List ℚ) : ℚ := dotQ v v

/-- `np.linalg.norm`, modelled as a real number. -/
noncomputable def normV (v : List ℚ) : ℝ := Real.sqrt ((sumSq v : ℚ) : ℝ)

/-- `EmbeddingRetriever.cosine_similarity` of `utils/retrieval.py`:
`0.0` when either norm is zero, else `dot / (norm1 * norm2)`. -/
noncomputable def cosine_similarity (v1 v2 : List ℚ) : ℝ :=
  if normV v1 = 0 ∨ normV v2 = 0 then 0
  else ((dotQ v1 v2 : ℚ) : ℝ) / (normV v1 * normV v2)

/-- The comparator of `similarities.sort(key=lambda x: x[1], reverse=True)`:
`a` may come before `b` when `a`'s score is at least `b`'s.  A stable sort
with this comparator is exactly Python's stable descending sort by score. -/
def simGE {α : Type} (a b : α × ℝ) : Prop := b.2 ≤ a.2

noncomputable instance {α : Type} : DecidableRel (@simGE α) :=
  fun a b => Real.decidableLE b.2 a.2

/-- The scored list `[(chunks[i], cosine_similarity(q, e_i)) for i, e_i in
enumerate(chunk_embeddings)]` (lengths are checked equal before this point). -/
noncomputable def rankScores {α : Type} (qEmb : List ℚ) (chunks : List α)
    (embs : List (List ℚ)) : List (α × ℝ) :=
  (chunks.zip embs).map fun p => (p.1, cosine_similarity qEmb p.2)

/-- `EmbeddingRetriever.find_similar_chunks` of `utils/retrieval.py`.
The query embedding (a network call in the source) is an explicit input.
Falsy `top_k` / `threshold` arguments are replaced by the configured
defaults, mirroring `top_k or Config.TOP_K_CHUNKS` etc.; the `ValueError`
on a chunk/embedding length mismatch is modelled with `Except.error`. -/
noncomputable def find_similar_chunks {α : Type} (qEmb : List ℚ) (chunks : List α)
    (embs : List (List ℚ)) (top_k : ℕ) (threshold : ℝ) :
    Except String (List (α × ℝ)) :=
  let k := if top_k = 0 then Config.TOP_K_CHUNKS else top_k
  let θ := if threshold = 0 then Config.SIMILARITY_THRESHOLD else threshold
  if chunks.length ≠ embs.length then
    Except.error ("Number of chunks and embeddings must match")
  else
    Except.ok
      ((((rankScores qEmb chunks embs).insertionSort simGE).filter
          (fun p => decide (θ ≤ p.2))).take k)

/-- Python slice `s[:a]`, including the negative-index case
(`s[:-n]` drops the last `n` characters). -/
def pyTakeText (s : String) (a : ℤ) : String :=
  if 0 ≤ a then ⟨s.data.take a.toNat⟩
  else ⟨s.data.take (s.data.length - min s.data.length a.natAbs)⟩

/-- The block a ranked chunk contributes to the context: `f"{chunk.text} {citation}"`. -/
def blockOf (c : TranscriptChunk) : String := c.text ++ " " ++ get_citation c

/-- The `for chunk, score in similar_chunks` loop of `prepare_context`:
`curLen` is `current_length` and `nonempty` is the truthiness of
`context_parts`.  After every append `current_length` grows by
`len(chunk_text) + 2` (the `if context_parts` guard is evaluated after the
append, so it is always true). -/
def prepPartsF (maxLen : ℕ) : List (TranscriptChunk × ℝ) → ℕ → Bool → List String
  | [], _, _ => []
  | (c, _) :: rest, curLen, nonempty =>
    let cit := get_citation c
    let ct := c.text ++ " " ++ cit
    if curLen + ct.length + 2 > maxLen ∧ nonempty then []
    else
      let ct :=
        if nonempty = false ∧ ct.length > maxLen then
          pyTakeText c.text ((maxLen : ℤ) - cit.length - 1) ++ " " ++ cit
        else ct
      ct :: prepPartsF maxLen rest (curLen + ct.length + 2) true

/-- `EmbeddingRetriever.prepare_context` of `utils/retrieval.py`; a falsy
`max_length` argument is replaced by `Config.MAX_CONTEXT_LENGTH`. -/
def prepare_context (similar_chunks : List (TranscriptChunk × ℝ)) (max_length : ℕ) : String :=
  let m := if max_length = 0 then Config.MAX_CONTEXT_LENGTH else max_length
  match similar_chunks with
  | [] => ""
  | _ :: _ => joinStr ("\n\n") (prepPartsF m similar_chunks 0 false)

/-- Python `str.lower()` (ASCII case mapping). -/
def toLowerL (l : List Char) : List Char := l.map Char.toLower

/-- `QAAgent.clean_answer` of `agents/qa.py`. -/
def clean_answer (answer : String) : String :=
  if answer = "" then "I couldn\x27t find an answer."
  else
    let a : String := ⟨pyStrip answer.data⟩
    let a : String :=
      if startsWithL (toLowerL a.data) ("answer:").data then ⟨pyStrip (a.data.drop 7)⟩ else a
    if toLowerL a.data ∈ [("").data, ("none").data, ("n/a").data, ("not applicable").data] then
      "Not found in video."
    else
      match a.data with
      | [] => a
      | ch :: rest => if ch.isLower then ⟨ch.toUpper :: rest⟩ else a

/-- `QAAgent.generate_answer` of `agents/qa.py`, restricted to the online
path with a string-shaped collaborator response.  The outcome of the
retried `text_generation` network call is an explicit `Except` input: a
raised exception is caught inside this function and becomes the fixed
error message (the prompt construction itself has no observable effect on
the returned answer and is omitted). -/
def generate_answer (genResult : Except String String) : String :=
  match genResult with
  | Except.ok s => clean_answer ⟨pyStrip s.data⟩
  | Except.error _ => "I encountered an error while generating the answer."

/-- `QAAgent.answer_question` of `agents/qa.py`.  The indexed state
(`self.chunks`, `self.chunk_embeddings`) and the two collaborator outcomes
(the query embedding and the generation result) are explicit inputs; falsy
`similarity_threshold` / `top_k` arguments are replaced by the configured
defaults.  The `try`/`except` around the body corresponds to the
`Except.error` branch of retrieval — the only statement in the body that
can raise. -/
noncomputable def answer_question (chunks : List TranscriptChunk) (embs : List (List ℚ))
    (qEmb : List ℚ) (genResult : Except String String)
    (similarity_threshold : ℝ) (top_k : ℕ) : String × List String :=
  if chunks.isEmpty ∨ embs.isEmpty then ("No content has been indexed for Q&A.", [])
  else
    match find_similar_chunks qEmb chunks embs
        (if top_k = 0 then Config.TOP_K_CHUNKS else top_k)
        (if similarity_threshold = 0 then Config.SIMILARITY_THRESHOLD
         else similarity_threshold) with
    | Except.error _ => ("I encountered an error while processing your question.", [])
    | Except.ok similar =>
      match similar with
      | [] => ("Not found in video.", [])
      | (_, s0) :: _ =>
        if s0 < (if similarity_threshold = 0 then Config.SIMILARITY_THRESHOLD
            else similarity_threshold) then ("Not found in video.", [])
        else if prepare_context similar 0 = "" then ("Not found in video.", [])
        else if generate_answer genResult ≠ "" ∧
            generate_answer genResult ≠ "Not found in video." ∧
            (similar.map fun p => get_citation p.1) ≠ [] ∧
            (similar.map fun p => get_citation p.1).any
              (fun cit => strIn cit (generate_answer genResult)) = false then
          (generate_answer genResult ++ " " ++
              joinStr (" ") (similar.map fun p => get_citation p.1),
            similar.map fun p => get_citation p.1)
        else (generate_answer genResult, similar.map fun p => get_citation p.1)

/-! ### Vector lemmas -/

theorem dotQ_comm (v1 v2 : List ℚ) : dotQ v1 v2 = dotQ v2 v1 := by
  unfold dotQ
  rw [List.zipWith_comm_of_comm _ mul_comm]

theorem sumSq_cons (x : ℚ) (v : List ℚ) : sumSq (x :: v) = x * x + sumSq v := by
  simp [sumSq, dotQ]

theorem sumSq_nonneg (v : List ℚ) : 0 ≤ sumSq v := by
  induction v with
  | nil => simp [sumSq, dotQ]
  | cons x t ih =>
    rw [sumSq_cons]
    exact add_nonneg (mul_self_nonneg x) ih

theorem sumSq_pos (v : List ℚ) (x : ℚ) (hx : x ∈ v) (hne : x ≠ 0) : 0 < sumSq v := by
  induction v with
  | nil => cases hx
  | cons y t ih =>
    rw [sumSq_cons]
    rcases List.mem_cons.mp hx with h | h
    · exact add_pos_of_pos_of_nonneg (by simpa [h] using mul_self_pos.mpr hne) (sumSq_nonneg t)
    · exact add_pos_of_nonneg_of_pos (mul_self_nonneg y) (ih h)

theorem sumSq_eq_zero (v : List ℚ) (h : ∀ x ∈ v, x = 0) : sumSq v = 0 := by
  induction v with
  | nil => simp [sumSq, dotQ]
  | cons y t ih =>
    rw [sumSq_cons, h y (List.mem_cons_self y t), ih fun x hx => h x (List.mem_cons_of_mem y hx)]
    ring

theorem normV_eq_zero (v : List ℚ) : normV v = 0 ↔ sumSq v = 0 := by
  unfold normV
  rw [Real.sqrt_eq_zero (by exact_mod_cast sumSq_nonneg v)]
  exact_mod_cast Iff.rfl

/-- C9: `cosine_similarity` is symmetric, equals `1` for any nonzero vector
paired with itself (so in particular is approximately `1.0`), and is exactly
`0` whenever either argument has zero norm — it never divides by zero. -/
theorem cosine_similarity_spec :
    (∀ v1 v2 : List ℚ, cosine_similarity v1 v2 = cosine_similarity v2 v1) ∧
    (∀ v : List ℚ, (∃ x ∈ v, x ≠ 0) → cosine_similarity v v = 1) ∧
    (∀ v1 v2 : List ℚ, (∀ x ∈ v1, x = 0) →
      cosine_similarity v1 v2 = 0 ∧ cosine_similarity v2 v1 = 0) := by
  refine ⟨fun v1 v2 => ?_, fun v hv => ?_, fun v1 v2 h => ?_⟩
  · unfold cosine_similarity
    by_cases h : normV v1 = 0 ∨ normV v2 = 0
    · rw [if_pos h, if_pos h.symm]
    · rw [if_neg h, if_neg fun hc => h hc.symm, dotQ_comm, mul_comm]
  · obtain ⟨x, hx, hne⟩ := hv
    have hpos : 0 < sumSq v := sumSq_pos v x hx hne
    have hn : ¬ (normV v = 0 ∨ normV v = 0) := by
      rw [or_self, normV_eq_zero]
      exact ne_of_gt hpos
    rw [cosine_similarity, if_neg hn]
    have hs : ((sumSq v : ℚ) : ℝ) = normV v * normV v :=
      (Real.mul_self_sqrt (by exact_mod_cast le_of_lt hpos)).symm
    rw [show dotQ v v = sumSq v from rfl, hs]
    have hnn : (0 : ℝ) < normV v * normV v := by
      rw [← hs]
      exact_mod_cast hpos
    exact div_self (ne_of_gt hnn)
  · have h0 : normV v1 = 0 := (normV_eq_zero v1).mpr (sumSq_eq_zero v1 h)
    constructor
    · rw [cosine_similarity, if_pos (Or.inl h0)]
    · rw [cosine_similarity, if_pos (Or.inr h0)]

/-- Witness for C9 at concrete vectors. -/
theorem cosine_similarity_spec_witness :
    cosine_similarity [(1 : ℚ), 2] [(1 : ℚ), 2] = 1 ∧
      cosine_similarity [(0 : ℚ)] [(3 : ℚ)] = 0 :=
  ⟨cosine_similarity_spec.2.1 [1, 2] ⟨1, by decide, by decide⟩,
    (cosine_similarity_spec.2.2 [0] [3] (by decide)).1⟩

/-! ### Merge lemmas -/

theorem mergeAux_ne_nil (minD : ℚ) : ∀ (rest : List Segment) (cur : Segment),
    mergeAux minD cur rest ≠ [] := by
  intro rest
  induction rest with
  | nil => intro cur; simp [mergeAux]
  | cons next t ih =>
    intro cur
    rw [mergeAux]
    split
    · exact ih _
    · simp

theorem mergeAux_length (minD : ℚ) : ∀ (rest : List Segment) (cur : Segment),
    (mergeAux minD cur rest).length ≤ rest.length + 1 := by
  intro rest
  induction rest with
  | nil => intro cur; simp [mergeAux]
  | cons next t ih =>
    intro cur
    rw [mergeAux]
    split
    · exact le_trans (ih _) (by simp)
    · simpa using ih next

theorem mergeAux_duration (minD : ℚ) : ∀ (rest : List Segment) (cur : Segment) (t : ℕ),
    t + 1 < (mergeAux minD cur rest).length →
    minD ≤ ((mergeAux minD cur rest).getD t ⟨"", 0, 0⟩).duration := by
  intro rest
  induction rest with
  | nil =>
    intro cur t ht
    simp [mergeAux] at ht
  | cons next tl ih =>
    intro cur t ht
    rw [mergeAux] at ht ⊢
    by_cases hd : cur.duration < minD
    · rw [if_pos hd] at ht ⊢
      exact ih _ t ht
    · rw [if_neg hd] at ht ⊢
      cases t with
      | zero => simpa using le_of_not_lt hd
      | succ t =>
        simp only [List.length_cons] at ht
        simpa using ih next t (by omega)

/-- C6: `merge_short_segments` is the left-to-right accumulator fold of the
source (merge while the accumulator is shorter than the threshold, extending
its span to `max(acc_end, next_end) - acc_start`; otherwise flush and restart;
always flush the final accumulator), and consequently every emitted segment
except possibly the last has duration at or above the threshold; the output
is empty only for empty input and never has more segments than the input. -/
theorem merge_short_segments_spec (segments : List Segment) (minD : ℚ) :
    ((merge_short_segments segments minD = []) ↔ segments = []) ∧
    (merge_short_segments segments minD).length ≤ segments.length ∧
    (∀ t, t + 1 < (merge_short_segments segments minD).length →
      minD ≤ ((merge_short_segments segments minD).getD t ⟨"", 0, 0⟩).duration) := by
  match segments with
  | [] => simp [merge_short_segments]
  | s :: rest =>
    refine ⟨by simp [merge_short_segments, mergeAux_ne_nil], ?_, ?_⟩
    · simpa [merge_short_segments] using mergeAux_length minD rest s
    · intro t ht
      exact mergeAux_duration minD rest s t ht

/-- Witness for C6: two segments of durations 3 and 4 with threshold 2 are
kept separate, and the first emitted segment's duration is at least 2. -/
theorem merge_short_segments_spec_witness :
    2 ≤ ((merge_short_segments [⟨"a", 0, 3⟩, ⟨"b", 3, 4⟩] 2).getD 0 ⟨"", 0, 0⟩).duration :=
  (merge_short_segments_spec [⟨"a", 0, 3⟩, ⟨"b", 3, 4⟩] 2).2.2 0 (by decide)

/-! ### C10: falsy arguments are replaced by configured defaults -/

/-- C10: passing a falsy parameter (threshold `0.0`, `top_k` `0`,
`chunk_size` `0`, `overlap_percent` `0.0`) to `find_similar_chunks`,
`chunk_transcript` or `answer_question` silently substitutes the configured
default (`0.35`, `5`, `1000`, `0.125` respectively), so a caller can never
actually request a zero threshold, zero top-k or zero overlap. -/
theorem falsy_defaults_spec :
    (Config.SIMILARITY_THRESHOLD = 0.35 ∧ Config.TOP_K_CHUNKS = 5 ∧
      Config.CHUNK_SIZE_TOKENS = 1000 ∧ Config.CHUNK_OVERLAP_PERCENT = 0.125) ∧
    (∀ (α : Type) (q : List ℚ) (chunks : List α) (embs : List (List ℚ)) (θ : ℝ),
      find_similar_chunks q chunks embs 0 θ =
        find_similar_chunks q chunks embs Config.TOP_K_CHUNKS θ) ∧
    (∀ (α : Type) (q : List ℚ) (chunks : List α) (embs : List (List ℚ)) (k : ℕ),
      find_similar_chunks q chunks embs k 0 =
        find_similar_chunks q chunks embs k Config.SIMILARITY_THRESHOLD) ∧
    (∀ (t : String) (ov : ℚ), chunk_transcript t 0 ov =
      chunk_transcript t Config.CHUNK_SIZE_TOKENS ov) ∧
    (∀ (t : String) (B : ℕ), chunk_transcript t B 0 =
      chunk_transcript t B Config.CHUNK_OVERLAP_PERCENT) ∧
    (∀ chunks embs qEmb gen (k : ℕ), answer_question chunks embs qEmb gen 0 k =
      answer_question chunks embs qEmb gen Config.SIMILARITY_THRESHOLD k) ∧
    (∀ chunks embs qEmb gen (θ : ℝ), answer_question chunks embs qEmb gen θ 0 =
      answer_question chunks embs qEmb gen θ Config.TOP_K_CHUNKS) := by
  refine ⟨⟨rfl, rfl, rfl, rfl⟩, ?_, ?_, ?_, ?_, ?_, ?_⟩
  · intro α q chunks embs θ
    simp only [find_similar_chunks, Config.TOP_K_CHUNKS]
    norm_num
  · intro α q chunks embs k
    simp only [find_similar_chunks, Config.SIMILARITY_THRESHOLD]
    norm_num
  · intro t ov
    simp only [chunk_transcript, Config.CHUNK_SIZE_TOKENS]
    norm_num
  · intro t B
    simp only [chunk_transcript, Config.CHUNK_OVERLAP_PERCENT]
    norm_num
  · intro chunks embs qEmb gen k
    simp only [answer_question, Config.SIMILARITY_THRESHOLD]
    norm_num
  · intro chunks embs qEmb gen θ
    simp only [answer_question, Config.TOP_K_CHUNKS]
    norm_num

/-! ### C3: ranking (find_similar_chunks) -/

/-- Strict ranking order on index-tagged scores: strictly higher score, or
equal score and earlier original position. -/
def rIdx (a b : ℕ × ℝ) : Prop := b.2 < a.2 ∨ (a.2 = b.2 ∧ a.1 < b.1)

theorem pairwise_orderedInsert_rIdx (a : ℕ × ℝ) :
    ∀ S : List (ℕ × ℝ), S.Pairwise rIdx → (∀ b ∈ S, a.1 < b.1) →
      (List.orderedInsert simGE a S).Pairwise rIdx := by
  intro S
  induction S with
  | nil => intro _ _; simp [List.orderedInsert, rIdx]
  | cons b S' ih =>
    intro hS hidx
    rw [List.orderedInsert]
    obtain ⟨hb, hS'⟩ := List.pairwise_cons.mp hS
    by_cases hab : simGE a b
    · rw [if_pos hab]
      refine List.pairwise_cons.mpr ⟨?_, hS⟩
      intro x hx
      have hxle : x.2 ≤ a.2 := by
        rcases List.mem_cons.mp hx with h | h
        · exact h ▸ hab
        · rcases hb x h with hlt | ⟨heq, _⟩
          · exact le_trans (le_of_lt hlt) hab
          · exact le_trans (le_of_eq heq.symm) hab
      have hxidx : a.1 < x.1 := hidx x hx
      rcases lt_or_eq_of_le hxle with h | h
      · exact Or.inl h
      · exact Or.inr ⟨h.symm, hxidx⟩
    · rw [if_neg hab]
      have hba : a.2 < b.2 := lt_of_not_le hab
      refine List.pairwise_cons.mpr ⟨?_, ih hS' fun x hx => hidx x (List.mem_cons_of_mem b hx)⟩
      intro x hx
      rcases List.mem_cons.mp ((List.perm_orderedInsert simGE a S').mem_iff.mp hx) with h | h
      · subst h
        exact Or.inl hba
      · exact hb x h

theorem pairwise_insertionSort_rIdx :
    ∀ l : List (ℕ × ℝ), l.Pairwise (fun a b => a.1 < b.1) →
      (l.insertionSort simGE).Pairwise rIdx := by
  intro l
  induction l with
  | nil => intro _; simp [List.insertionSort]
  | cons x l ih =>
    intro hl
    obtain ⟨hx, hl'⟩ := List.pairwise_cons.mp hl
    rw [List.insertionSort]
    exact pairwise_orderedInsert_rIdx x _ (ih hl')
      fun b hb => hx b ((List.mem_insertionSort simGE).mp hb)

/-- C3 (amended: `top_k = 0` is replaced by the default 5, so the length
bound `≤ top_k` holds for `top_k ≥ 1`): `find_similar_chunks` fails with the
invalid-argument error exactly when the chunk and embedding counts differ;
otherwise it returns a list sorted in descending score order, containing no
entry scoring below the threshold, of length at most `top_k`; ties between
equal scores are broken by original chunk order (stable sort). -/
theorem find_similar_chunks_spec :
    (∀ (α : Type) (q : List ℚ) (chunks : List α) (embs : List (List ℚ)) (k : ℕ) (θ : ℝ),
      chunks.length ≠ embs.length →
        find_similar_chunks q chunks embs k θ =
          Except.error ("Number of chunks and embeddings must match")) ∧
    (∀ (α : Type) (q : List ℚ) (chunks : List α) (embs : List (List ℚ)) (k : ℕ) (θ : ℝ),
      1 ≤ k → chunks.length = embs.length →
        ∃ out, find_similar_chunks q chunks embs k θ = Except.ok out ∧
          out.Pairwise (fun a b => b.2 ≤ a.2) ∧
          (∀ p ∈ out, θ ≤ p.2) ∧
          out.length ≤ k) ∧
    (∀ (n : ℕ) (q : List ℚ) (embs : List (List ℚ)) (k : ℕ) (θ : ℝ)
      (out : List (ℕ × ℝ)),
      find_similar_chunks q (List.range n) embs k θ = Except.ok out →
        out.Pairwise rIdx) := by
  refine ⟨?_, ?_, ?_⟩
  · intro α q chunks embs k θ hne
    rw [find_similar_chunks, if_pos hne]
  · intro α q chunks embs k θ hk hlen
    rw [find_similar_chunks, if_neg (by rw [hlen]; exact fun h => h rfl)]
    refine ⟨_, rfl, ?_, ?_, ?_⟩
    · haveI : IsTotal (α × ℝ) simGE := ⟨fun a b => le_total b.2 a.2⟩
      haveI : IsTrans (α × ℝ) simGE := ⟨fun a b c h1 h2 => le_trans h2 h1⟩
      have hs : ((rankScores q chunks embs).insertionSort simGE).Pairwise simGE :=
        List.sorted_insertionSort simGE _
      exact ((hs.sublist (List.filter_sublist _)).sublist (List.take_sublist _ _))
    · intro p hp
      have hp' := (List.take_sublist _ _).mem hp
      have hd := (List.mem_filter.mp hp').2
      have hθ' : (if θ = 0 then Config.SIMILARITY_THRESHOLD else θ) ≤ p.2 :=
        of_decide_eq_true hd
      by_cases h0 : θ = 0
      · rw [if_pos h0] at hθ'
        rw [h0]
        exact le_trans (by norm_num [Config.SIMILARITY_THRESHOLD]) hθ'
      · rwa [if_neg h0] at hθ'
    · calc _ ≤ (if k = 0 then Config.TOP_K_CHUNKS else k) := List.length_take_le _ _
        _ = k := by rw [if_neg (by omega)]
  · intro n q embs k θ out hout
    rw [find_similar_chunks] at hout
    by_cases hne : (List.range n).length ≠ embs.length
    · rw [if_pos hne] at hout
      cases hout
    · rw [if_neg hne] at hout
      have hlen : n = embs.length := by simpa using not_not.mp hne
      have hzip : ((List.range n).zip embs).Pairwise (fun a b => a.1 < b.1) := by
        have hmap : ((List.range n).zip embs).map Prod.fst = List.range n :=
          List.map_fst_zip _ _ (by simp [hlen])
        have := List.pairwise_lt_range n
        rw [← hmap] at this
        exact (List.pairwise_map).mp this
      have hrank : (rankScores q (List.range n) embs).Pairwise (fun a b => a.1 < b.1) := by
        unfold rankScores
        exact (List.pairwise_map).mpr hzip
      have hsorted := pairwise_insertionSort_rIdx _ hrank
      have : out = (((rankScores q (List.range n) embs).insertionSort simGE).filter
          (fun p => decide ((if θ = 0 then Config.SIMILARITY_THRESHOLD else θ) ≤ p.2))).take
          (if k = 0 then Config.TOP_K_CHUNKS else k) := by
        cases hout
        rfl
      rw [this]
      exact (hsorted.sublist (List.filter_sublist _)).sublist (List.take_sublist _ _)

theorem cosine_similarity_nil : cosine_similarity [] [] = 0 := by
  rw [cosine_similarity, if_pos]
  left
  simp [normV, sumSq, dotQ]

/-- C3 counterexample: with `top_k = 0` the falsy-argument defaulting
substitutes `top_k = 5`, and a single chunk scoring above the threshold is
returned — a list of length `1`, which is not `≤ 0`, refuting "of length at
most top_k" as stated. -/
theorem find_similar_chunks_topk_counterexample :
    find_similar_chunks [] [(0 : ℕ)] [([] : List ℚ)] 0 (-1) =
      Except.ok [((0 : ℕ), (0 : ℝ))] ∧
    ¬ ([((0 : ℕ), (0 : ℝ))].length ≤ 0) := by
  constructor
  · rw [find_similar_chunks, if_neg (by decide)]
    norm_num [rankScores, cosine_similarity_nil, List.insertionSort, List.orderedInsert,
      List.filter, Config.TOP_K_CHUNKS]
  · decide

/-- Witness for C3 at concrete inputs: a length mismatch yields the
invalid-argument error, and a matched singleton input yields a sorted,
thresholded, length-bounded result. -/
theorem find_similar_chunks_spec_witness :
    find_similar_chunks [] [(0 : ℕ)] ([] : List (List ℚ)) 1 (-1) =
      Except.error ("Number of chunks and embeddings must match") ∧
    ∃ out, find_similar_chunks [] [(0 : ℕ)] [([] : List ℚ)] 1 (-1) = Except.ok out ∧
      out.Pairwise (fun a b => b.2 ≤ a.2) ∧ (∀ p ∈ out, (-1 : ℝ) ≤ p.2) ∧ out.length ≤ 1 :=
  ⟨find_similar_chunks_spec.1 ℕ [] [0] [] 1 (-1) (by decide),
   find_similar_chunks_spec.2.1 ℕ [] [0] [[]] 1 (-1) (by decide) (by decide)⟩

/-! ### Timestamp evaluation helpers -/

theorem fmt_zero : format_timestamp 0 = "00:00" := by
  simp only [format_timestamp, pyMod]
  norm_num
  decide

theorem fmt_five : format_timestamp 5 = "00:05" := by
  simp only [format_timestamp, pyMod]
  norm_num
  decide

theorem fmt_seven : format_timestamp 7 = "00:07" := by
  simp only [format_timestamp, pyMod]
  norm_num
  decide

/-! ### C5: prepare_context -/

theorem strLen_mk (l : List Char) : (⟨l⟩ : String).length = l.length := rfl

theorem joinWith_len (sep : List Char) : ∀ (x : List Char) (parts : List (List Char)),
    (joinWith sep (x :: parts)).length =
      x.length + (parts.map List.length).sum + sep.length * parts.length := by
  intro x parts
  induction parts generalizing x with
  | nil => simp [joinWith]
  | cons y rest ih =>
    show (x ++ sep ++ joinWith sep (y :: rest)).length = _
    rw [List.length_append, List.length_append, ih y]
    simp [List.map_cons, List.sum_cons]
    ring

theorem joinStr_length (sep : String) (x : String) (parts : List String) :
    (joinStr sep (x :: parts)).length =
      x.length + (parts.map String.length).sum + sep.length * parts.length := by
  show (joinWith sep.data (x.data :: parts.map String.data)).length = _
  rw [joinWith_len]
  simp [List.map_map, Function.comp]
  rfl

/-- Length bookkeeping of the context loop: sum of part lengths plus two per
part (exactly how `current_length` accumulates in the source). -/
def Lsum (parts : List String) : ℕ := (parts.map String.length).sum + 2 * parts.length

theorem prepPartsF_true_blocks (m : ℕ) :
    ∀ (items : List (TranscriptChunk × ℝ)) (curLen : ℕ),
      ∃ t, t ≤ items.length ∧
        prepPartsF m items curLen true = (items.map fun p => blockOf p.1).take t := by
  intro items
  induction items with
  | nil => intro curLen; exact ⟨0, by simp, by simp [prepPartsF]⟩
  | cons p rest ih =>
    intro curLen
    obtain ⟨c, s⟩ := p
    rw [prepPartsF]
    by_cases hbr : curLen + (c.text ++ " " ++ get_citation c).length + 2 > m ∧ (true : Bool) = true
    · exact ⟨0, by simp, by rw [if_pos hbr]; simp⟩
    · rw [if_neg hbr, if_neg (by simp)]
      obtain ⟨t, ht, heq⟩ := ih (curLen + (c.text ++ " " ++ get_citation c).length + 2)
      refine ⟨t + 1, by simpa using ht, ?_⟩
      show (c.text ++ " " ++ get_citation c) ::
          prepPartsF m rest (curLen + (c.text ++ " " ++ get_citation c).length + 2) true = _
      rw [heq]
      simp [blockOf]

theorem prepPartsF_true_len (m : ℕ) :
    ∀ (items : List (TranscriptChunk × ℝ)) (curLen : ℕ),
      curLen ≤ m + 2 → curLen + Lsum (prepPartsF m items curLen true) ≤ m + 2 := by
  intro items
  induction items with
  | nil => intro curLen h; simpa [prepPartsF, Lsum] using h
  | cons p rest ih =>
    intro curLen h
    obtain ⟨c, s⟩ := p
    rw [prepPartsF]
    by_cases hbr : curLen + (c.text ++ " " ++ get_citation c).length + 2 > m ∧ (true : Bool) = true
    · rw [if_pos hbr]
      simpa [Lsum] using h
    · rw [if_neg hbr, if_neg (by simp)]
      have hle : curLen + (c.text ++ " " ++ get_citation c).length + 2 ≤ m := by
        rcases not_and_or.mp hbr with h1 | h1
        · omega
        · exact absurd rfl h1
      have := ih (curLen + (c.text ++ " " ++ get_citation c).length + 2) (by omega)
      simp only [Lsum, List.map_cons, List.sum_cons, List.length_cons] at this ⊢
      omega

/-- The first iteration of the context loop: never breaks (no parts yet),
truncates the first block when it alone exceeds the budget. -/
theorem prepPartsF_cons_false (m : ℕ) (c : TranscriptChunk) (s : ℝ)
    (rest : List (TranscriptChunk × ℝ)) :
    prepPartsF m ((c, s) :: rest) 0 false =
      (if (blockOf c).length > m then
          pyTakeText c.text ((m : ℤ) - (get_citation c).length - 1) ++ " " ++ get_citation c
        else blockOf c) ::
        prepPartsF m rest
          ((if (blockOf c).length > m then
              pyTakeText c.text ((m : ℤ) - (get_citation c).length - 1) ++ " " ++ get_citation c
            else blockOf c).length + 2) true := by
  rw [prepPartsF]
  simp [blockOf]

theorem strLen_append (a b : String) : (a ++ b).length = a.length + b.length := by
  show (a ++ b).data.length = _
  rw [String.data_append, List.length_append]
  rfl

/-- C5 (amended: the result is guaranteed not to exceed `max_chars` only when
`max_chars` is at least one more than the first block's citation length —
otherwise the Python negative slice `text[:max_chars - len(citation) - 1]`
keeps all but the last few characters and the result overshoots):
`prepare_context` returns the `"{text} {citation}"` blocks joined by blank
lines in ranked order, as a prefix of the block list whose first block is
always included (truncated, citation preserved, when it alone exceeds the
budget), returns `""` on empty input, and under the stated proviso its
result never exceeds `max_chars`. -/
theorem prepare_context_spec :
    (∀ m : ℕ, prepare_context [] m = "") ∧
    (∀ (c0 : TranscriptChunk) (s0 : ℝ) (rest : List (TranscriptChunk × ℝ)) (m : ℕ),
      1 ≤ m → (get_citation c0).length + 1 ≤ m →
        (prepare_context ((c0, s0) :: rest) m).length ≤ m ∧
        ∃ t, 1 ≤ t ∧ t ≤ ((c0, s0) :: rest).length ∧
          prepare_context ((c0, s0) :: rest) m =
            joinStr ("\n\n")
              (((if (blockOf c0).length > m then
                    pyTakeText c0.text ((m : ℤ) - (get_citation c0).length - 1) ++
                      " " ++ get_citation c0
                  else blockOf c0) :: rest.map fun p => blockOf p.1).take t)) := by
  constructor
  · intro m
    rfl
  · intro c0 s0 rest m hm hcit
    have hm0 : m ≠ 0 := by omega
    have hpc : prepare_context ((c0, s0) :: rest) m =
        joinStr ("\n\n") (prepPartsF m ((c0, s0) :: rest) 0 false) := by
      simp only [prepare_context, if_neg hm0]
    set hd : String :=
      if (blockOf c0).length > m then
        pyTakeText c0.text ((m : ℤ) - (get_citation c0).length - 1) ++ " " ++ get_citation c0
      else blockOf c0 with hhd_def
    have hhd : hd.length ≤ m := by
      rw [hhd_def]
      by_cases htr : (blockOf c0).length > m
      · rw [if_pos htr]
        have ha : (0 : ℤ) ≤ (m : ℤ) - (get_citation c0).length - 1 := by omega
        rw [strLen_append, strLen_append]
        have htk : (pyTakeText c0.text ((m : ℤ) - (get_citation c0).length - 1)).length ≤
            m - (get_citation c0).length - 1 := by
          rw [pyTakeText, if_pos ha, strLen_mk]
          calc (c0.text.data.take ((m : ℤ) - (get_citation c0).length - 1).toNat).length
              ≤ ((m : ℤ) - (get_citation c0).length - 1).toNat :=
                List.length_take_le _ _
            _ = m - (get_citation c0).length - 1 := by omega
        have hsp : (" " : String).length = 1 := rfl
        omega
      · rw [if_neg htr]
        omega
    rw [hpc, prepPartsF_cons_false, ← hhd_def]
    have hlenP := prepPartsF_true_len m rest (hd.length + 2) (by omega)
    obtain ⟨t', ht', hPeq⟩ := prepPartsF_true_blocks m rest (hd.length + 2)
    constructor
    · have hsep : ("\n\n" : String).length = 2 := rfl
      rw [joinStr_length, hsep]
      simp only [Lsum] at hlenP
      omega
    · refine ⟨t' + 1, by omega, by simp; omega, ?_⟩
      rw [hPeq, List.take_succ_cons]

/-- C5 counterexample: with `max_chars = 5` and a single 20-character chunk,
the truncation slice index `5 - 13 - 1 = -9` is negative, Python's `text[:-9]`
keeps the first 11 characters, and the returned context has 25 characters —
exceeding `max_chars`, refuting "the returned string never exceeds max_chars"
as stated. -/
theorem prepare_context_overflow_counterexample :
    ¬ ((prepare_context [(⟨"abcdefghijklmnopqrst", 0, 0, 0⟩, (0 : ℝ))] 5).length ≤ 5) := by
  have hc : get_citation ⟨"abcdefghijklmnopqrst", 0, 0, 0⟩ = "[00:00–00:00]" := by
    simp [get_citation, fmt_zero]
  have h1 : prepare_context [(⟨"abcdefghijklmnopqrst", 0, 0, 0⟩, (0 : ℝ))] 5 =
      joinStr ("\n\n")
        (prepPartsF 5 [(⟨"abcdefghijklmnopqrst", 0, 0, 0⟩, (0 : ℝ))] 0 false) := by
    simp only [prepare_context]
    norm_num
  rw [h1, prepPartsF_cons_false]
  simp only [blockOf, hc]
  decide

/-- Witness for C5 at a concrete input with a generous budget. -/
theorem prepare_context_spec_witness :
    (prepare_context [(⟨"hello", 0, 0, 0⟩, (0 : ℝ))] 100).length ≤ 100 :=
  (prepare_context_spec.2 ⟨"hello", 0, 0, 0⟩ 0 [] 100 (by decide)
    (by
      have hc : get_citation ⟨"hello", 0, 0, 0⟩ = "[00:00–00:00]" := by
        simp [get_citation, fmt_zero]
      rw [hc]
      decide)).1

/-! ### C4 and C8: answer_question -/

theorem startsWithL_subset : ∀ (small big : List Char),
    startsWithL big small = true → ∀ c ∈ small, c ∈ big := by
  intro small
  induction small with
  | nil => intro big _ c hc; cases hc
  | cons b bs ih =>
    intro big hsw c hc
    match big with
    | [] => cases hsw
    | a :: as =>
      rw [show startsWithL (a :: as) (b :: bs) = (a == b && startsWithL as bs) from rfl,
        Bool.and_eq_true] at hsw
      rcases List.mem_cons.mp hc with h | h
      · subst h
        exact List.mem_cons.mpr (Or.inl (beq_iff_eq.mp hsw.1).symm)
      · exact List.mem_cons_of_mem a (ih as hsw.2 c h)

theorem containsL_subset : ∀ (big small : List Char),
    containsL big small = true → ∀ c ∈ small, c ∈ big := by
  intro big
  induction big with
  | nil =>
    intro small h c hc
    rw [show containsL [] small = (startsWithL [] small || false) from rfl,
      Bool.or_false] at h
    exact startsWithL_subset small [] h c hc
  | cons a t ih =>
    intro small h c hc
    rw [show containsL (a :: t) small = (startsWithL (a :: t) small || containsL t small)
        from rfl, Bool.or_eq_true] at h
    rcases h with h | h
    · exact startsWithL_subset small (a :: t) h c hc
    · exact List.mem_cons_of_mem a (ih small h c hc)

theorem strIn_subset (small big : String) (h : strIn small big = true) :
    ∀ c ∈ small.data, c ∈ big.data :=
  containsL_subset big.data small.data h

theorem mem_get_citation (c : TranscriptChunk) : ('[' : Char) ∈ (get_citation c).data := by
  rw [get_citation, String.data_append, String.data_append, String.data_append,
    String.data_append]
  exact List.mem_append.mpr (Or.inl (List.mem_append.mpr (Or.inl
    (List.mem_append.mpr (Or.inl (List.mem_append.mpr (Or.inl (by decide))))))))

theorem prepare_context_ne (c : TranscriptChunk) (s : ℝ)
    (rest : List (TranscriptChunk × ℝ)) (m : ℕ) :
    prepare_context ((c, s) :: rest) m ≠ "" := by
  set m' := if m = 0 then Config.MAX_CONTEXT_LENGTH else m with hm'
  have hpc : prepare_context ((c, s) :: rest) m =
      joinStr ("\n\n") (prepPartsF m' ((c, s) :: rest) 0 false) := rfl
  have hone : ∀ (x y : String), 1 ≤ (x ++ " " ++ y).length := by
    intro x y
    rw [strLen_append, strLen_append]
    have : (" " : String).length = 1 := rfl
    omega
  have hlen : 1 ≤ (prepare_context ((c, s) :: rest) m).length := by
    rw [hpc, prepPartsF_cons_false, joinStr_length]
    by_cases htr : (blockOf c).length > m'
    · rw [if_pos htr]
      have := hone (pyTakeText c.text ((m' : ℤ) - (get_citation c).length - 1)) (get_citation c)
      omega
    · rw [if_neg htr, blockOf]
      have := hone c.text (get_citation c)
      omega
  intro hcon
  rw [hcon] at hlen
  exact absurd hlen (by decide)

/-- The path of `answer_question` that reaches answer generation: non-empty
index, successful retrieval with a non-empty result whose best score clears
the threshold.  The returned answer is the generated answer with all
retrieved citations appended (space-separated) unless the answer is empty,
is exactly `"Not found in video."`, or already contains one of the
citations verbatim; the returned citation list is always the full list of
retrieved citations. -/
theorem answer_question_reaches_append (chunks : List TranscriptChunk)
    (embs : List (List ℚ)) (qEmb : List ℚ) (gen : Except String String)
    (θ : ℝ) (k : ℕ) (c0 : TranscriptChunk) (s0 : ℝ) (rest : List (TranscriptChunk × ℝ))
    (hc : chunks ≠ []) (he : embs ≠ [])
    (hfs : find_similar_chunks qEmb chunks embs (if k = 0 then Config.TOP_K_CHUNKS else k)
      (if θ = 0 then Config.SIMILARITY_THRESHOLD else θ) = Except.ok ((c0, s0) :: rest))
    (hbest : ¬ s0 < (if θ = 0 then Config.SIMILARITY_THRESHOLD else θ)) :
    answer_question chunks embs qEmb gen θ k =
      (if generate_answer gen ≠ "" ∧ generate_answer gen ≠ "Not found in video." ∧
          (((c0, s0) :: rest).map fun p => get_citation p.1) ≠ [] ∧
          (((c0, s0) :: rest).map fun p => get_citation p.1).any
            (fun cit => strIn cit (generate_answer gen)) = false then
        (generate_answer gen ++ " " ++
            joinStr (" ") (((c0, s0) :: rest).map fun p => get_citation p.1),
          ((c0, s0) :: rest).map fun p => get_citation p.1)
      else (generate_answer gen, ((c0, s0) :: rest).map fun p => get_citation p.1)) := by
  rw [answer_question, if_neg (by simp [hc, he]), hfs]
  simp only []
  rw [if_neg hbest, if_neg (prepare_context_ne c0 s0 rest 0)]

theorem genErrorNoBracket :
    ('[' : Char) ∉ ("I encountered an error while generating the answer.").data := by
  decide

/-- Evaluation of retrieval on a single chunk with an empty (zero-norm)
embedding and threshold `-1`: the chunk is retrieved with score `0`. -/
theorem dflt_idem_nat (k : ℕ) :
    (if (if k = 0 then Config.TOP_K_CHUNKS else k) = 0 then Config.TOP_K_CHUNKS
      else (if k = 0 then Config.TOP_K_CHUNKS else k)) =
      (if k = 0 then Config.TOP_K_CHUNKS else k) := by
  by_cases h : k = 0 <;> simp [h, Config.TOP_K_CHUNKS]

theorem dflt_idem_real (θ : ℝ) :
    (if (if θ = 0 then Config.SIMILARITY_THRESHOLD else θ) = 0 then
        Config.SIMILARITY_THRESHOLD
      else (if θ = 0 then Config.SIMILARITY_THRESHOLD else θ)) =
      (if θ = 0 then Config.SIMILARITY_THRESHOLD else θ) := by
  by_cases h : θ = 0
  · simp only [h, if_pos rfl]
    rw [if_neg (by norm_num [Config.SIMILARITY_THRESHOLD])]
  · rw [if_neg h, if_neg h]

theorem find_eval_single (c : TranscriptChunk) :
    find_similar_chunks [] [c] [[]] 1 (-1) = Except.ok [(c, 0)] := by
  rw [find_similar_chunks]
  norm_num [rankScores, cosine_similarity_nil, List.insertionSort, List.orderedInsert,
    List.filter]

/-- C4 (amended: a collaborator exception during generation is caught inside
the generator and yields the fixed generation-error message with the
retrieved citations appended and the non-empty citation list returned — not
empty citations; an exception during retrieval, the only raising statement
in the body, degrades to the fixed processing-error answer with empty
citations): `answer_question` never propagates an exception (the model is a
total function); with an empty index it returns the fixed "nothing indexed"
response with empty citations for every collaborator outcome (no
collaborator call can affect it); when no chunk scores at or above the
threshold it returns the fixed "Not found in video." response with empty
citations. -/
theorem answer_question_error_handling :
    (∀ (embs : List (List ℚ)) (qEmb : List ℚ) (gen : Except String String) (θ : ℝ) (k : ℕ),
      answer_question [] embs qEmb gen θ k = ("No content has been indexed for Q&A.", [])) ∧
    (∀ (chunks : List TranscriptChunk) (qEmb : List ℚ) (gen : Except String String)
        (θ : ℝ) (k : ℕ),
      answer_question chunks [] qEmb gen θ k = ("No content has been indexed for Q&A.", [])) ∧
    (∀ chunks embs (qEmb : List ℚ) (gen : Except String String) (θ : ℝ) (k : ℕ),
      chunks ≠ [] → embs ≠ [] → chunks.length ≠ embs.length →
        answer_question chunks embs qEmb gen θ k =
          ("I encountered an error while processing your question.", [])) ∧
    (∀ chunks embs (qEmb : List ℚ) (gen : Except String String) (θ : ℝ) (k : ℕ),
      chunks ≠ [] → embs ≠ [] → chunks.length = embs.length →
      (∀ e ∈ embs, cosine_similarity qEmb e <
        (if θ = 0 then Config.SIMILARITY_THRESHOLD else θ)) →
        answer_question chunks embs qEmb gen θ k = ("Not found in video.", [])) ∧
    (∀ chunks embs (qEmb : List ℚ) (msg : String) (θ : ℝ) (k : ℕ) (c0 : TranscriptChunk)
        (s0 : ℝ) (rest : List (TranscriptChunk × ℝ)),
      chunks ≠ [] → embs ≠ [] →
      find_similar_chunks qEmb chunks embs (if k = 0 then Config.TOP_K_CHUNKS else k)
        (if θ = 0 then Config.SIMILARITY_THRESHOLD else θ) = Except.ok ((c0, s0) :: rest) →
      ¬ s0 < (if θ = 0 then Config.SIMILARITY_THRESHOLD else θ) →
        answer_question chunks embs qEmb (Except.error msg) θ k =
          ("I encountered an error while generating the answer." ++ " " ++
              joinStr (" ") (((c0, s0) :: rest).map fun p => get_citation p.1),
            ((c0, s0) :: rest).map fun p => get_citation p.1) ∧
        (((c0, s0) :: rest).map fun p => get_citation p.1) ≠ []) := by
  refine ⟨?_, ?_, ?_, ?_, ?_⟩
  · intro embs qEmb gen θ k
    rw [answer_question, if_pos (by simp)]
  · intro chunks qEmb gen θ k
    rw [answer_question, if_pos (by simp)]
  · intro chunks embs qEmb gen θ k hc he hne
    have herr : find_similar_chunks qEmb chunks embs (if k = 0 then Config.TOP_K_CHUNKS else k)
        (if θ = 0 then Config.SIMILARITY_THRESHOLD else θ) =
        Except.error ("Number of chunks and embeddings must match") := by
      rw [find_similar_chunks, if_pos hne]
    rw [answer_question, if_neg (by simp [hc, he]), herr]
  · intro chunks embs qEmb gen θ k hc he hlen hbelow
    have hok : find_similar_chunks qEmb chunks embs (if k = 0 then Config.TOP_K_CHUNKS else k)
        (if θ = 0 then Config.SIMILARITY_THRESHOLD else θ) = Except.ok [] := by
      rw [find_similar_chunks, if_neg (by rw [hlen]; exact fun h => h rfl),
        dflt_idem_real θ]
      have hfil : (((rankScores qEmb chunks embs).insertionSort simGE).filter
          (fun p => decide ((if θ = 0 then Config.SIMILARITY_THRESHOLD else θ) ≤ p.2))) =
          [] := by
        rw [List.filter_eq_nil_iff]
        intro p hp
        have hp' := (List.mem_insertionSort simGE).mp hp
        obtain ⟨q, hq, rfl⟩ := List.mem_map.mp hp'
        have he' : q.2 ∈ embs := (List.of_mem_zip hq).2
        simp only [decide_eq_true_eq]
        exact not_le.mpr (hbelow q.2 he')
      rw [hfil]
      simp
    rw [answer_question, if_neg (by simp [hc, he]), hok]
  · intro chunks embs qEmb msg θ k c0 s0 rest hc he hfs hbest
    have hcitne : (((c0, s0) :: rest).map fun p => get_citation p.1) ≠ [] := by simp
    refine ⟨?_, hcitne⟩
    rw [answer_question_reaches_append chunks embs qEmb (Except.error msg) θ k c0 s0 rest
      hc he hfs hbest]
    have hga : generate_answer (Except.error msg) =
        "I encountered an error while generating the answer." := rfl
    have hany : (((c0, s0) :: rest).map fun p => get_citation p.1).any
        (fun cit => strIn cit (generate_answer (Except.error msg))) = false := by
      rw [List.any_eq_false]
      intro cit hcit
      obtain ⟨p, hp, rfl⟩ := List.mem_map.mp hcit
      intro habs
      rw [hga] at habs
      exact genErrorNoBracket
        (strIn_subset _ _ habs '[' (mem_get_citation p.1))
    rw [if_pos ⟨by rw [hga]; decide, by rw [hga]; decide, hcitne, hany⟩, hga]

/-- C4 counterexample: with one indexed chunk retrieved at score `0 ≥ -1`,
a generation-call exception produces the fixed generation-error message
with the retrieved citation appended and a NON-empty citation list —
refuting "degrades to a fixed error-message answer with empty citations". -/
theorem answer_question_generation_error_counterexample :
    answer_question [⟨"hello world", 0, 5, 0⟩] [[]] [] (Except.error ("boom")) (-1) 1 =
      ("I encountered an error while generating the answer." ++ " " ++ "[00:00–00:05]",
        ["[00:00–00:05]"]) := by
  have hcit : get_citation ⟨"hello world", 0, 5, 0⟩ = "[00:00–00:05]" := by
    simp [get_citation, fmt_zero, fmt_five]
  have hfs : find_similar_chunks [] [(⟨"hello world", 0, 5, 0⟩ : TranscriptChunk)] [[]]
      (if (1 : ℕ) = 0 then Config.TOP_K_CHUNKS else 1)
      (if (-1 : ℝ) = 0 then Config.SIMILARITY_THRESHOLD else -1) =
      Except.ok [(⟨"hello world", 0, 5, 0⟩, 0)] := by
    norm_num
    exact find_eval_single _
  rw [answer_question_reaches_append _ _ _ _ _ _ _ _ _ (by simp) (by simp) hfs (by norm_num)]
  simp only [List.map_cons, List.map_nil, hcit]
  decide

/-- Witness for C4: a chunk/embedding count mismatch inside a non-empty
index degrades to the fixed processing-error answer with empty citations. -/
theorem answer_question_error_handling_witness :
    answer_question [⟨"a", 0, 0, 0⟩] [[], []] [] (Except.ok ("x")) 1 2 =
      ("I encountered an error while processing your question.", []) :=
  answer_question_error_handling.2.2.1 [⟨"a", 0, 0, 0⟩] [[], []] [] (Except.ok ("x")) 1 2
    (List.cons_ne_nil _ _) (List.cons_ne_nil _ _) (by decide)

/-- C8 (amended: citations are also not appended when the generated answer is
empty or is exactly `"Not found in video."`): on the path that reaches
generation, all retrieved citations are appended to the answer text
(space-separated) when no citation substring is already present verbatim in
the generated text (and the answer is non-empty and not the not-found
sentinel); when a citation is already present, or the generated answer is
the sentinel, nothing is appended; the citation list itself is returned
unchanged in every case. -/
theorem answer_question_citation_append (chunks : List TranscriptChunk)
    (embs : List (List ℚ)) (qEmb : List ℚ) (gen : Except String String)
    (θ : ℝ) (k : ℕ) (c0 : TranscriptChunk) (s0 : ℝ) (rest : List (TranscriptChunk × ℝ))
    (hc : chunks ≠ []) (he : embs ≠ [])
    (hfs : find_similar_chunks qEmb chunks embs (if k = 0 then Config.TOP_K_CHUNKS else k)
      (if θ = 0 then Config.SIMILARITY_THRESHOLD else θ) = Except.ok ((c0, s0) :: rest))
    (hbest : ¬ s0 < (if θ = 0 then Config.SIMILARITY_THRESHOLD else θ)) :
    (((((c0, s0) :: rest).map fun p => get_citation p.1).any
        (fun cit => strIn cit (generate_answer gen)) = false ∧
      generate_answer gen ≠ "" ∧ generate_answer gen ≠ "Not found in video.") →
      answer_question chunks embs qEmb gen θ k =
        (generate_answer gen ++ " " ++
            joinStr (" ") (((c0, s0) :: rest).map fun p => get_citation p.1),
          ((c0, s0) :: rest).map fun p => get_citation p.1)) ∧
    ((((c0, s0) :: rest).map fun p => get_citation p.1).any
        (fun cit => strIn cit (generate_answer gen)) = true →
      answer_question chunks embs qEmb gen θ k =
        (generate_answer gen, ((c0, s0) :: rest).map fun p => get_citation p.1)) ∧
    (generate_answer gen = "Not found in video." →
      answer_question chunks embs qEmb gen θ k =
        (generate_answer gen, ((c0, s0) :: rest).map fun p => get_citation p.1)) := by
  rw [answer_question_reaches_append chunks embs qEmb gen θ k c0 s0 rest hc he hfs hbest]
  refine ⟨fun ⟨h1, h2, h3⟩ => ?_, fun h1 => ?_, fun h1 => ?_⟩
  · rw [if_pos ⟨h2, h3, by simp, h1⟩]
  · rw [if_neg]
    intro ⟨_, _, _, h4⟩
    rw [h1] at h4
    cases h4
  · rw [if_neg]
    intro ⟨_, h2, _, _⟩
    exact h2 h1

/-- C8 counterexample: the model generates exactly `"Not found in video."`;
no citation substring is present in it, yet the citation is NOT appended
(the source additionally guards on the generated answer not being the
not-found sentinel), refuting the claim as stated. -/
theorem answer_question_notfound_counterexample :
    answer_question [⟨"hello world", 0, 5, 0⟩] [[]] []
        (Except.ok ("Not found in video.")) (-1) 1 =
      ("Not found in video.", ["[00:00–00:05]"]) ∧
    strIn "[00:00–00:05]" ("Not found in video.") = false := by
  have hcit : get_citation ⟨"hello world", 0, 5, 0⟩ = "[00:00–00:05]" := by
    simp [get_citation, fmt_zero, fmt_five]
  have hfs : find_similar_chunks [] [(⟨"hello world", 0, 5, 0⟩ : TranscriptChunk)] [[]]
      (if (1 : ℕ) = 0 then Config.TOP_K_CHUNKS else 1)
      (if (-1 : ℝ) = 0 then Config.SIMILARITY_THRESHOLD else -1) =
      Except.ok [(⟨"hello world", 0, 5, 0⟩, 0)] := by
    norm_num
    exact find_eval_single _
  refine ⟨?_, by decide⟩
  rw [answer_question_reaches_append _ _ _ _ _ _ _ _ _ (by simp) (by simp) hfs (by norm_num)]
  simp only [List.map_cons, List.map_nil, hcit]
  decide

/-- Witness for C8: a generated answer containing no citation gets all
retrieved citations appended, space-separated. -/
theorem answer_question_citation_append_witness :
    answer_question [⟨"hello world", 0, 5, 0⟩] [[]] [] (Except.ok ("The answer.")) (-1) 1 =
      (generate_answer (Except.ok ("The answer.")) ++ " " ++
          joinStr (" ")
            ([((⟨"hello world", 0, 5, 0⟩ : TranscriptChunk), (0 : ℝ))].map
              fun p => get_citation p.1),
        [((⟨"hello world", 0, 5, 0⟩ : TranscriptChunk), (0 : ℝ))].map
          fun p => get_citation p.1) := by
  have hcit : get_citation ⟨"hello world", 0, 5, 0⟩ = "[00:00–00:05]" := by
    simp [get_citation, fmt_zero, fmt_five]
  have hfs : find_similar_chunks [] [(⟨"hello world", 0, 5, 0⟩ : TranscriptChunk)] [[]]
      (if (1 : ℕ) = 0 then Config.TOP_K_CHUNKS else 1)
      (if (-1 : ℝ) = 0 then Config.SIMILARITY_THRESHOLD else -1) =
      Except.ok [(⟨"hello world", 0, 5, 0⟩, 0)] := by
    norm_num
    exact find_eval_single _
  exact (answer_question_citation_append [⟨"hello world", 0, 5, 0⟩] [[]] []
      (Except.ok ("The answer.")) (-1) 1 ⟨"hello world", 0, 5, 0⟩ 0 []
      (by simp) (by simp) hfs (by norm_num)).1
    ⟨by simp only [List.map_cons, List.map_nil, hcit]; decide, by decide, by decide⟩

/-! ### C7: normalization and cleaning -/

theorem dropWhile_headI_false (p : Char → Bool) :
    ∀ l : List Char, l.dropWhile p = [] ∨ p ((l.dropWhile p).headI) = false := by
  intro l
  induction l with
  | nil => exact Or.inl rfl
  | cons c t ih =>
    by_cases hc : p c = true
    · rw [List.dropWhile_cons_of_pos hc]
      exact ih
    · right
      rw [List.dropWhile_cons_of_neg hc]
      exact Bool.not_eq_true _ ▸ hc

theorem collapseWsF_nil : ∀ fuel : ℕ, collapseWsF fuel [] = [] := by
  intro fuel
  cases fuel <;> rfl

theorem collapseWsF_cons_nonspace (fuel : ℕ) (d : Char) (rest : List Char)
    (hd : isPySpace d = false) :
    collapseWsF (fuel + 1) (d :: rest) = d :: collapseWsF fuel rest := by
  rw [collapseWsF, if_neg (by simp [hd])]

theorem collapseWsF_mem : ∀ (fuel : ℕ) (l : List Char), l.length ≤ fuel →
    ∀ c ∈ collapseWsF fuel l, isPySpace c = true → c = ' ' := by
  intro fuel
  induction fuel with
  | zero =>
    intro l hl c hc _
    rw [List.eq_nil_of_length_eq_zero (Nat.le_zero.mp hl)] at hc
    cases hc
  | succ fuel ih =>
    intro l hl c hc hsp
    cases l with
    | nil =>
      rw [collapseWsF_nil] at hc
      cases hc
    | cons d rest =>
      rw [collapseWsF] at hc
      by_cases hd : isPySpace d = true
      · rw [if_pos hd] at hc
        rcases List.mem_cons.mp hc with h | h
        · exact h
        · refine ih _ ?_ c h hsp
          have h1 := (List.dropWhile_sublist (l := rest) isPySpace).length_le
          simp only [List.length_cons] at hl
          omega
      · rw [if_neg hd] at hc
        rcases List.mem_cons.mp hc with h | h
        · subst h
          exact absurd hsp hd
        · refine ih rest ?_ c h hsp
          simp only [List.length_cons] at hl
          omega

theorem collapseWsF_chain : ∀ (fuel : ℕ) (l : List Char), l.length ≤ fuel →
    (collapseWsF fuel l).Chain' (fun a b => ¬ (a = ' ' ∧ b = ' ')) := by
  intro fuel
  induction fuel with
  | zero =>
    intro l hl
    rw [List.eq_nil_of_length_eq_zero (Nat.le_zero.mp hl), collapseWsF_nil]
    simp
  | succ fuel ih =>
    intro l hl
    cases l with
    | nil =>
      rw [collapseWsF_nil]
      simp
    | cons d rest =>
      simp only [List.length_cons] at hl
      by_cases hd : isPySpace d = true
      · rw [collapseWsF, if_pos hd, List.chain'_cons']
        have hfl : (rest.dropWhile isPySpace).length ≤ fuel := by
          have h1 := (List.dropWhile_sublist (l := rest) isPySpace).length_le
          omega
        refine ⟨?_, ih _ hfl⟩
        intro b hb
        cases hrd : rest.dropWhile isPySpace with
        | nil =>
          rw [hrd, collapseWsF_nil] at hb
          cases hb
        | cons e rest' =>
          have he : isPySpace e = false := by
            rcases dropWhile_headI_false isPySpace rest with h | h
            · rw [hrd] at h
              cases h
            · rw [hrd] at h
              exact h
          rw [hrd] at hb
          have hfl' : rest'.length + 1 ≤ fuel := by
            rw [hrd] at hfl
            simpa using hfl
          cases fuel with
          | zero => omega
          | succ f =>
            rw [collapseWsF_cons_nonspace f e rest' he] at hb
            simp only [List.head?_cons, Option.mem_some_iff] at hb
            subst hb
            rintro ⟨_, hbe⟩
            rw [hbe] at he
            exact absurd he (by decide)
      · rw [collapseWsF, if_neg hd, List.chain'_cons']
        refine ⟨?_, ih rest (by omega)⟩
        intro b _
        rintro ⟨hd', _⟩
        rw [hd'] at hd
        exact hd (by decide)

theorem pyStrip_sublist (l : List Char) : List.Sublist (pyStrip l) l := by
  unfold pyStrip
  have h1 : List.Sublist ((l.dropWhile isPySpace).reverse.dropWhile isPySpace)
      (l.dropWhile isPySpace).reverse := List.dropWhile_sublist _
  have h2 := h1.reverse
  rw [List.reverse_reverse] at h2
  exact h2.trans (List.dropWhile_sublist _)

theorem pyStrip_decomp (l : List Char) :
    ∃ ta tb, l = ta ++ (pyStrip l ++ tb) ∧ l.dropWhile isPySpace = pyStrip l ++ tb := by
  have hb : l.dropWhile isPySpace =
      pyStrip l ++ ((l.dropWhile isPySpace).reverse.takeWhile isPySpace).reverse := by
    have h := List.takeWhile_append_dropWhile isPySpace (l.dropWhile isPySpace).reverse
    have h2 := congrArg List.reverse h
    rw [List.reverse_append, List.reverse_reverse] at h2
    exact h2.symm
  refine ⟨l.takeWhile isPySpace, ((l.dropWhile isPySpace).reverse.takeWhile isPySpace).reverse,
    ?_, hb⟩
  rw [← hb, List.takeWhile_append_dropWhile]

theorem headI_of_append (v t : List Char) (hv : v ≠ []) : (v ++ t).headI = v.headI := by
  cases v with
  | nil => exact absurd rfl hv
  | cons c r => rfl

theorem pyStrip_collapse_mem (t0 : List Char) :
    ∀ c ∈ pyStrip (collapseWs t0), isPySpace c = true → c = ' ' := by
  intro c hc hsp
  exact collapseWsF_mem (t0.length + 1) t0 (by omega) c
    ((pyStrip_sublist (collapseWs t0)).mem hc) hsp

theorem pyStrip_collapse_chain (t0 : List Char) :
    (pyStrip (collapseWs t0)).Chain' (fun a b => ¬ (a = ' ' ∧ b = ' ')) := by
  have hch : (collapseWs t0).Chain' (fun a b => ¬ (a = ' ' ∧ b = ' ')) :=
    collapseWsF_chain (t0.length + 1) t0 (by omega)
  obtain ⟨ta, tb, hdec, _⟩ := pyStrip_decomp (collapseWs t0)
  rw [hdec] at hch
  exact ((List.chain'_append.mp (List.chain'_append.mp hch).2.1)).1

theorem pyStrip_collapse_ends (t0 : List Char) (hne : pyStrip (collapseWs t0) ≠ []) :
    isPySpace (pyStrip (collapseWs t0)).headI = false ∧
    isPySpace (pyStrip (collapseWs t0)).reverse.headI = false := by
  obtain ⟨ta, tb, _, hdw⟩ := pyStrip_decomp (collapseWs t0)
  constructor
  · have hh : ((collapseWs t0).dropWhile isPySpace).headI = (pyStrip (collapseWs t0)).headI := by
      rw [hdw]
      exact headI_of_append _ tb hne
    rcases dropWhile_headI_false isPySpace (collapseWs t0) with h | h
    · rw [hdw] at h
      exact absurd (List.append_eq_nil.mp h).1 hne
    · rw [hh] at h
      exact h
  · have hrev : (pyStrip (collapseWs t0)).reverse =
        ((collapseWs t0).dropWhile isPySpace).reverse.dropWhile isPySpace := by
      unfold pyStrip
      rw [List.reverse_reverse]
    rcases dropWhile_headI_false isPySpace ((collapseWs t0).dropWhile isPySpace).reverse
        with h | h
    · rw [← hrev] at h
      exact absurd (by simpa using congrArg List.length h) (by
        intro hlen
        exact hne (List.eq_nil_of_length_eq_zero (by simpa using hlen)))
    · rw [← hrev] at h
      exact h

/-- The shape of `clean_transcript_text`: empty, or a strip-of-collapse of a
span-removed character list with at least 3 characters. -/
theorem clean_shape (s : String) : clean_transcript_text s = "" ∨
    ∃ t0 : List Char, clean_transcript_text s = ⟨pyStrip (collapseWs t0)⟩ ∧
      3 ≤ (pyStrip (collapseWs t0)).length := by
  by_cases hs : s = ""
  · left
    simp [clean_transcript_text, hs]
  · rw [clean_transcript_text, if_neg hs]
    by_cases hlen : (pyStrip (collapseWs (removeSpans '♪' '♪' (removeSpans '<' '>'
        (removeSpans '(' ')' (removeSpans '[' ']' s.data)))))).length < 3
    · left
      exact if_pos hlen
    · right
      exact ⟨removeSpans '♪' '♪' (removeSpans '<' '>'
          (removeSpans '(' ')' (removeSpans '[' ']' s.data))), if_neg hlen, by omega⟩

/-- C7 (amended: the character-level guarantee "no output line contains `[`,
`(`, `<` or `♪`" does not hold — unmatched delimiters survive cleaning, and
merging or whitespace collapse can even reassemble a complete bracketed span
in an output line, whose timestamp prefix is itself bracketed; what holds is
the structural part): `normalize_transcript` produces at most as many output
lines as input segments, joined by newlines; `clean_transcript_text` removes
`[...]`, `(...)`, `<...>` and `♪...♪` spans, collapses every whitespace run
to one space, trims, and returns `""` whenever the cleaned result is shorter
than 3 characters — so its output is empty or has at least 3 characters, its
only whitespace character is a single space, it contains no two adjacent
spaces, and it neither starts nor ends with whitespace. -/
theorem normalize_clean_spec :
    (∀ td : List Segment, (normalizeLines td).length ≤ td.length) ∧
    (∀ td : List Segment, td ≠ [] →
      normalize_transcript td = joinStr ("\n") (normalizeLines td)) ∧
    (∀ s : String, clean_transcript_text s = "" ∨ 3 ≤ (clean_transcript_text s).length) ∧
    (∀ s : String, ∀ c ∈ (clean_transcript_text s).data, isPySpace c = true → c = ' ') ∧
    (∀ s : String, (clean_transcript_text s).data.Chain' (fun a b => ¬ (a = ' ' ∧ b = ' '))) ∧
    (∀ s : String, (clean_transcript_text s).data ≠ [] →
      isPySpace (clean_transcript_text s).data.headI = false ∧
      isPySpace (clean_transcript_text s).data.reverse.headI = false) := by
  have hmerge : ∀ (l : List Segment) (m : ℚ), (merge_short_segments l m).length ≤ l.length := by
    intro l m
    cases l with
    | nil => simp [merge_short_segments]
    | cons s rest => simpa [merge_short_segments] using mergeAux_length m rest s
  refine ⟨?_, ?_, ?_, ?_, ?_, ?_⟩
  · intro td
    calc (normalizeLines td).length
        = (merge_short_segments (normalizeSegments td) 2).length := List.length_map _ _
      _ ≤ (normalizeSegments td).length := hmerge _ 2
      _ ≤ td.length := List.length_filterMap_le _ _
  · intro td htd
    rw [normalize_transcript, if_neg htd]
  · intro s
    rcases clean_shape s with h | ⟨t0, heq, hlen⟩
    · exact Or.inl h
    · right
      rw [heq, strLen_mk]
      exact hlen
  · intro s c hc hsp
    rcases clean_shape s with h | ⟨t0, heq, _⟩
    · rw [h] at hc
      cases hc
    · rw [heq] at hc
      exact pyStrip_collapse_mem t0 c hc hsp
  · intro s
    rcases clean_shape s with h | ⟨t0, heq, _⟩
    · rw [h]
      simp
    · rw [heq]
      exact pyStrip_collapse_chain t0
  · intro s hne
    rcases clean_shape s with h | ⟨t0, heq, _⟩
    · rw [h] at hne
      exact absurd rfl hne
    · rw [heq] at hne ⊢
      exact pyStrip_collapse_ends t0 hne

/-- C7 counterexample: two short segments `"ab["` and `"cd]"` each survive
cleaning (unmatched delimiters are not artifacts of the removal patterns),
the merge pass joins them, and the output line `"[00:00] ab[ cd]"` contains
`[`, `(`-class delimiter characters and even the complete bracketed span
`"[ cd]"` — refuting "no output line contains [, (, <, or ♪ artifacts from
the cleaning set". -/
theorem normalize_artifact_counterexample :
    normalize_transcript [⟨"ab[", 0, 1⟩, ⟨"cd]", 1, 1⟩] = "[00:00] ab[ cd]" ∧
    containsL ("[00:00] ab[ cd]").data ("[ cd]").data = true := by
  have h1 : normalizeSegments [⟨"ab[", 0, 1⟩, ⟨"cd]", 1, 1⟩] =
      [⟨"ab[", 0, 1⟩, ⟨"cd]", 1, 1⟩] := by decide
  have h2 : merge_short_segments [⟨"ab[", 0, 1⟩, ⟨"cd]", 1, 1⟩] 2 = [⟨"ab[ cd]", 0, 2⟩] := by
    show mergeAux 2 ⟨"ab[", 0, 1⟩ [⟨"cd]", 1, 1⟩] = _
    rw [mergeAux, if_pos (by norm_num), mergeAux]
    have hstr : ("ab[" ++ " " ++ "cd]" : String) = "ab[ cd]" := by decide
    rw [hstr]
    norm_num
  have h3 : normalizeLines [⟨"ab[", 0, 1⟩, ⟨"cd]", 1, 1⟩] = ["[00:00] ab[ cd]"] := by
    rw [normalizeLines, h1, h2, List.map_cons, List.map_nil, fmt_zero]
    decide
  constructor
  · rw [normalize_transcript, if_neg (by decide), h3]
    decide
  · decide

/-- Witness for C7: cleaning a plain word yields a non-whitespace-headed
result, and collapsed interior whitespace is a single space. -/
theorem normalize_clean_spec_witness :
    isPySpace ((clean_transcript_text ("hello")).data.headI) = false ∧
    (' ' : Char) = ' ' :=
  ⟨(normalize_clean_spec.2.2.2.2.2 ("hello") (by decide)).1,
   normalize_clean_spec.2.2.2.1 ("a  b") ' ' (by decide) (by decide)⟩

/-! ### C1 and C2: chunking windows -/

/-- Default window used with `List.getD`. -/
def dfltWin : ℕ × ℕ × Option TranscriptChunk := (0, 0, none)

theorem accEndF_succ (segs : List Line) (B i fuel j cur : ℕ) :
    accEndF segs B i (fuel + 1) j cur =
      if j < segs.length ∧ cur < B then
        if cur + estimate_tokens ((segs.getD j dfltLine)).text ≤ B ∨ j = i then
          accEndF segs B i fuel (j + 1) (cur + estimate_tokens ((segs.getD j dfltLine)).text)
        else j
      else j := rfl

theorem accEndF_lower (segs : List Line) (B i : ℕ) :
    ∀ (fuel j cur : ℕ), j ≤ accEndF segs B i fuel j cur := by
  intro fuel
  induction fuel with
  | zero => intro j cur; exact le_refl j
  | succ fuel ih =>
    intro j cur
    rw [accEndF_succ]
    by_cases hg : j < segs.length ∧ cur < B
    · rw [if_pos hg]
      by_cases hc : cur + estimate_tokens ((segs.getD j dfltLine)).text ≤ B ∨ j = i
      · rw [if_pos hc]
        exact le_trans (Nat.le_succ j) (ih (j + 1) _)
      · rw [if_neg hc]
    · rw [if_neg hg]

theorem accEndF_upper (segs : List Line) (B i : ℕ) :
    ∀ (fuel j cur : ℕ), j ≤ segs.length → accEndF segs B i fuel j cur ≤ segs.length := by
  intro fuel
  induction fuel with
  | zero => intro j cur h; exact h
  | succ fuel ih =>
    intro j cur h
    rw [accEndF_succ]
    by_cases hg : j < segs.length ∧ cur < B
    · rw [if_pos hg]
      by_cases hc : cur + estimate_tokens ((segs.getD j dfltLine)).text ≤ B ∨ j = i
      · rw [if_pos hc]
        exact ih (j + 1) _ hg.1
      · rw [if_neg hc]
        exact h
    · rw [if_neg hg]
      exact h

theorem accEnd_lower (segs : List Line) (B i : ℕ) (hi : i < segs.length) (hB : 1 ≤ B) :
    i + 1 ≤ accEnd segs B i := by
  rw [accEnd]
  have hf : segs.length - i = (segs.length - i - 1) + 1 := by omega
  rw [hf, accEndF, if_pos ⟨hi, by omega⟩, if_pos (Or.inr rfl)]
  exact accEndF_lower segs B i _ (i + 1) _

theorem accEnd_upper (segs : List Line) (B i : ℕ) (hi : i ≤ segs.length) :
    accEnd segs B i ≤ segs.length :=
  accEndF_upper segs B i _ i 0 hi

/-- The head of a non-empty `chunkLoopF` run starting at `i` is a window
starting at `i`. -/
theorem chunkLoopF_head (segs : List Line) (B : ℕ) (ov : ℚ) :
    ∀ (fuel i cid : ℕ), chunkLoopF segs B ov fuel i cid = [] ∨
      ∃ j c rest, chunkLoopF segs B ov fuel i cid = (i, j, c) :: rest := by
  intro fuel i cid
  cases fuel with
  | zero => exact Or.inl rfl
  | succ fuel =>
    by_cases hi : i < segs.length
    · right
      rw [chunkLoopF, if_pos hi]
      exact ⟨_, _, _, rfl⟩
    · left
      rw [chunkLoopF, if_neg hi]

theorem chunkLoopF_progress (segs : List Line) (B : ℕ) (ov : ℚ) :
    ∀ (fuel i cid t : ℕ), t + 1 < (chunkLoopF segs B ov fuel i cid).length →
      ((chunkLoopF segs B ov fuel i cid).getD t dfltWin).1 <
        ((chunkLoopF segs B ov fuel i cid).getD (t + 1) dfltWin).1 := by
  intro fuel
  induction fuel with
  | zero => intro i cid t ht; simp [chunkLoopF] at ht
  | succ fuel ih =>
    intro i cid t ht
    by_cases hi : i < segs.length
    · rw [chunkLoopF, if_pos hi] at ht ⊢
      cases t with
      | zero =>
        simp only [List.getD_cons_zero, List.getD_cons_succ]
        simp only [List.length_cons] at ht
        set i' := max (i + 1) (accEnd segs B i - overlapCount (accEnd segs B i - i) ov)
          with hi'
        rcases chunkLoopF_head segs B ov fuel i'
            (if hasNonSpace (joinStr (" ")
              (((segs.drop i).take (accEnd segs B i - i)).map Line.text)).data = true
             then cid + 1 else cid) with h | ⟨j', c', rest', h⟩
        · rw [h] at ht
          simp at ht
        · rw [h]
          simp only [List.getD_cons_zero]
          have : i + 1 ≤ i' := le_max_left _ _
          omega
      | succ t =>
        simp only [List.getD_cons_succ]
        simp only [List.length_cons] at ht
        exact ih _ _ t (by omega)
    · rw [chunkLoopF, if_neg hi] at ht
      simp at ht

theorem chunkLoopF_cover (segs : List Line) (B : ℕ) (ov : ℚ) (hB : 1 ≤ B) :
    ∀ (fuel i cid t : ℕ), segs.length - i ≤ fuel → i ≤ t → t < segs.length →
      ∃ w ∈ chunkLoopF segs B ov fuel i cid, w.1 ≤ t ∧ t < w.2.1 := by
  intro fuel
  induction fuel with
  | zero => intro i cid t hfuel hit htn; omega
  | succ fuel ih =>
    intro i cid t hfuel hit htn
    have hi : i < segs.length := by omega
    rw [chunkLoopF, if_pos hi]
    by_cases hj : t < accEnd segs B i
    · exact ⟨(i, accEnd segs B i, _), List.mem_cons_self _ _, hit, hj⟩
    · have hij : i + 1 ≤ accEnd segs B i := accEnd_lower segs B i hi hB
      have hi' : max (i + 1) (accEnd segs B i - overlapCount (accEnd segs B i - i) ov) ≤ t := by
        have h1 : accEnd segs B i - overlapCount (accEnd segs B i - i) ov ≤ accEnd segs B i :=
          Nat.sub_le _ _
        omega
      obtain ⟨w, hw, hw1, hw2⟩ := ih _ _ t (by omega) hi' htn
      exact ⟨w, List.mem_cons_of_mem _ hw, hw1, hw2⟩

theorem hasNonSpace_joinStr_head (x : String) (xs : List String)
    (hx : hasNonSpace x.data = true) :
    hasNonSpace (joinStr (" ") (x :: xs)).data = true := by
  cases xs with
  | nil => exact hx
  | cons y ys =>
    show hasNonSpace ((x.data ++ (" ").data) ++ joinWith (" ").data ((y :: ys).map String.data))
      = true
    rw [hasNonSpace, List.any_append, List.any_append]
    rw [hasNonSpace] at hx
    rw [hx]
    rfl

theorem chunkLoopF_emit (segs : List Line) (B : ℕ) (ov : ℚ) (hB : 1 ≤ B)
    (hall : ∀ s ∈ segs, hasNonSpace s.text.data = true) :
    ∀ (fuel i cid : ℕ), ∀ w ∈ chunkLoopF segs B ov fuel i cid, ∃ ch, w.2.2 = some ch := by
  intro fuel
  induction fuel with
  | zero => intro i cid w hw; simp [chunkLoopF] at hw
  | succ fuel ih =>
    intro i cid w hw
    by_cases hi : i < segs.length
    · rw [chunkLoopF, if_pos hi] at hw
      rcases List.mem_cons.mp hw with h | h
      · subst h
        have hij : i + 1 ≤ accEnd segs B i := accEnd_lower segs B i hi hB
        have hdrop : segs.drop i = segs.get ⟨i, hi⟩ :: segs.drop (i + 1) :=
          List.drop_eq_getElem_cons hi
        have htake : (segs.drop i).take (accEnd segs B i - i) =
            segs.get ⟨i, hi⟩ :: (segs.drop (i + 1)).take (accEnd segs B i - i - 1) := by
          rw [hdrop]
          have heq : accEnd segs B i - i = (accEnd segs B i - i - 1) + 1 := by omega
          conv_lhs => rw [heq]
          rw [List.take_succ_cons]
        have hemit : hasNonSpace (joinStr (" ")
            (((segs.drop i).take (accEnd segs B i - i)).map Line.text)).data = true := by
          rw [htake, List.map_cons]
          exact hasNonSpace_joinStr_head _ _ (hall _ (List.get_mem segs i hi))
        simp only [hemit, if_true]
        exact ⟨_, rfl⟩
      · exact ih _ _ w h
    · rw [chunkLoopF, if_neg hi] at hw
      cases hw

/-- C2 (amended: every input line lies in the consumed range of at least one
chunking window, and a window's chunk is emitted whenever some line in it
has non-blank text — so when every parsed line has non-blank text every line
is covered by an emitted chunk; a line whose text is blank can fall only
into windows whose joined text is blank, which are skipped): the starting
line index strictly increases on every iteration of the chunking loop (so
it terminates), and every input line index lies in the consumed range
`[i, j)` of at least one window. -/
theorem chunk_progress_coverage (segs : List Line) (B : ℕ) (ov : ℚ) (hB : 1 ≤ B) :
    (∀ t, t + 1 < (chunkWindows segs B ov).length →
      ((chunkWindows segs B ov).getD t dfltWin).1 <
        ((chunkWindows segs B ov).getD (t + 1) dfltWin).1) ∧
    (∀ t, t < segs.length → ∃ w ∈ chunkWindows segs B ov, w.1 ≤ t ∧ t < w.2.1) ∧
    ((∀ s ∈ segs, hasNonSpace s.text.data = true) →
      ∀ w ∈ chunkWindows segs B ov, ∃ ch, w.2.2 = some ch) := by
  refine ⟨?_, ?_, ?_⟩
  · intro t ht
    exact chunkLoopF_progress segs B ov segs.length 0 0 t ht
  · intro t ht
    exact chunkLoopF_cover segs B ov hB segs.length 0 0 t (by omega) (Nat.zero_le t) ht
  · intro hall w hw
    exact chunkLoopF_emit segs B ov hB hall segs.length 0 0 w hw

theorem chunkLoopF_succ (segs : List Line) (B : ℕ) (ov : ℚ) (fuel i cid : ℕ) :
    chunkLoopF segs B ov (fuel + 1) i cid =
      if i < segs.length then
        (i, accEnd segs B i,
          if hasNonSpace (joinStr (" ")
              (((segs.drop i).take (accEnd segs B i - i)).map Line.text)).data = true then
            some ⟨joinStr (" ") (((segs.drop i).take (accEnd segs B i - i)).map Line.text),
              (segs.getD i dfltLine).start_time,
              (if i < accEnd segs B i then (segs.getD (accEnd segs B i - 1) dfltLine).start_time
               else (segs.getD i dfltLine).start_time), cid⟩
          else none) ::
          chunkLoopF segs B ov fuel
            (max (i + 1) (accEnd segs B i - overlapCount (accEnd segs B i - i) ov))
            (if hasNonSpace (joinStr (" ")
                (((segs.drop i).take (accEnd segs B i - i)).map Line.text)).data = true then
              cid + 1 else cid)
      else [] := rfl

/-- C2 counterexample: the single line `"[00:00]"` parses with empty text
(`text = ""`); the chunking loop consumes window `[0, 1)` but skips the
blank chunk, so no emitted chunk's consumed range covers line 0 — the chunk
list is empty for a non-empty parsed line list, refuting "every input line
index lies in the consumed range of at least one emitted chunk". -/
theorem chunk_coverage_counterexample :
    chunkSegments [⟨"", 0⟩] 1000 (1/8) = [] ∧ ([(⟨"", 0⟩ : Line)] : List Line) ≠ [] := by
  refine ⟨?_, by simp⟩
  have hacc : accEnd [⟨"", 0⟩] 1000 0 = 1 := by
    show accEndF [⟨"", 0⟩] 1000 0 1 0 0 = 1
    rw [show (1 : ℕ) = 0 + 1 from rfl, accEndF_succ,
      if_pos ⟨by norm_num, by norm_num⟩, if_pos (Or.inr rfl)]
    rfl
  rw [chunkSegments, chunkWindows]
  show (chunkLoopF [⟨"", 0⟩] 1000 (1/8) (0 + 1) 0 0).filterMap (fun w => w.2.2) = []
  rw [chunkLoopF_succ, if_pos (by norm_num), hacc]
  decide

/-- Witness for C2: with two non-blank lines and budget 1 token, line index 1
is covered by some window. -/
theorem chunk_progress_coverage_witness :
    ∃ w ∈ chunkWindows [⟨"hello", 0⟩, ⟨"world", 7⟩] 1 (1/8), w.1 ≤ 1 ∧ 1 < w.2.1 :=
  (chunk_progress_coverage [⟨"hello", 0⟩, ⟨"world", 7⟩] 1 (1/8) (by decide)).2.1 1 (by decide)

theorem tokSum_same (segs : List Line) (i : ℕ) : tokSum segs i i = 0 := by
  simp [tokSum]

theorem tokSum_succ (segs : List Line) (i t : ℕ) (h : i ≤ t) :
    tokSum segs i (t + 1) = tokSum segs i t + estimate_tokens ((segs.getD t dfltLine)).text := by
  rw [tokSum, tokSum]
  have h1 : t + 1 - i = (t - i) + 1 := by omega
  rw [h1, List.range'_concat, List.map_append, List.sum_append]
  have h2 : i + 1 * (t - i) = t := by omega
  rw [h2]
  simp

theorem accEndF_spec (segs : List Line) (B i : ℕ) :
    ∀ (fuel j : ℕ), i ≤ j → j ≤ segs.length → segs.length - j ≤ fuel →
      (∀ t, i < t → t < j → tokSum segs i t < B ∧ tokSum segs i (t + 1) ≤ B) →
      ((∀ t, i < t → t < accEndF segs B i fuel j (tokSum segs i j) →
          tokSum segs i t < B ∧ tokSum segs i (t + 1) ≤ B) ∧
        (accEndF segs B i fuel j (tokSum segs i j) = segs.length ∨
          ¬ (tokSum segs i (accEndF segs B i fuel j (tokSum segs i j)) < B ∧
             tokSum segs i (accEndF segs B i fuel j (tokSum segs i j) + 1) ≤ B))) := by
  intro fuel
  induction fuel with
  | zero =>
    intro j hij hjn hfuel hinv
    have hr : accEndF segs B i 0 j (tokSum segs i j) = j := rfl
    rw [hr]
    exact ⟨hinv, Or.inl (by omega)⟩
  | succ fuel ih =>
    intro j hij hjn hfuel hinv
    rw [accEndF_succ]
    by_cases hg : j < segs.length ∧ tokSum segs i j < B
    · rw [if_pos hg]
      by_cases hc : tokSum segs i j + estimate_tokens ((segs.getD j dfltLine)).text ≤ B ∨
          j = i
      · rw [if_pos hc]
        have hsum : tokSum segs i j + estimate_tokens ((segs.getD j dfltLine)).text =
            tokSum segs i (j + 1) := (tokSum_succ segs i j hij).symm
        rw [hsum]
        apply ih (j + 1) (by omega) (by omega) (by omega)
        intro t hit htj
        by_cases htj' : t < j
        · exact hinv t hit htj'
        · have ht : t = j := by omega
          subst ht
          refine ⟨hg.2, ?_⟩
          rcases hc with h | h
          · rw [tokSum_succ segs i t hij]
            exact h
          · omega
      · rw [if_neg hc]
        refine ⟨hinv, Or.inr ?_⟩
        rintro ⟨_, h2⟩
        rw [tokSum_succ segs i j hij] at h2
        exact (not_or.mp hc).1 h2
    · rw [if_neg hg]
      rcases not_and_or.mp hg with h | h
      · exact ⟨hinv, Or.inl (by omega)⟩
      · exact ⟨hinv, Or.inr fun hh => h hh.1⟩

theorem accEnd_spec (segs : List Line) (B i : ℕ) (hi : i ≤ segs.length) :
    (∀ t, i < t → t < accEnd segs B i → tokSum segs i t < B ∧ tokSum segs i (t + 1) ≤ B) ∧
    (accEnd segs B i = segs.length ∨
      ¬ (tokSum segs i (accEnd segs B i) < B ∧ tokSum segs i (accEnd segs B i + 1) ≤ B)) := by
  have h := accEndF_spec segs B i (segs.length - i) i (le_refl i) hi (by omega)
    (fun t h1 h2 => by omega)
  rw [tokSum_same] at h
  rw [accEnd]
  exact h

theorem chunkLoopF_windows (segs : List Line) (B : ℕ) (ov : ℚ) (hB : 1 ≤ B) :
    ∀ (fuel i cid : ℕ), ∀ w ∈ chunkLoopF segs B ov fuel i cid,
      w.1 < w.2.1 ∧ w.2.1 ≤ segs.length ∧
      (∀ t, w.1 < t → t < w.2.1 → tokSum segs w.1 t < B ∧ tokSum segs w.1 (t + 1) ≤ B) ∧
      (w.2.1 = segs.length ∨
        ¬ (tokSum segs w.1 w.2.1 < B ∧ tokSum segs w.1 (w.2.1 + 1) ≤ B)) ∧
      (∀ ch, w.2.2 = some ch →
        ch.start_time = (segs.getD w.1 dfltLine).start_time ∧
        ch.end_time = (segs.getD (w.2.1 - 1) dfltLine).start_time ∧
        ch.text = joinStr (" ") (((segs.drop w.1).take (w.2.1 - w.1)).map Line.text)) := by
  intro fuel
  induction fuel with
  | zero => intro i cid w hw; simp [chunkLoopF] at hw
  | succ fuel ih =>
    intro i cid w hw
    by_cases hi : i < segs.length
    · rw [chunkLoopF_succ, if_pos hi] at hw
      rcases List.mem_cons.mp hw with h | h
      · subst h
        have hlow : i + 1 ≤ accEnd segs B i := accEnd_lower segs B i hi hB
        refine ⟨show i < accEnd segs B i by omega, accEnd_upper segs B i (le_of_lt hi),
          (accEnd_spec segs B i (le_of_lt hi)).1,
          (accEnd_spec segs B i (le_of_lt hi)).2, ?_⟩
        intro ch hch
        by_cases hemit : hasNonSpace (joinStr (" ")
            (((segs.drop i).take (accEnd segs B i - i)).map Line.text)).data = true
        · rw [if_pos hemit] at hch
          obtain rfl := Option.some.inj hch
          refine ⟨rfl, ?_, rfl⟩
          show (if i < accEnd segs B i then (segs.getD (accEnd segs B i - 1) dfltLine).start_time
            else (segs.getD i dfltLine).start_time) = _
          rw [if_pos (by omega)]
        · rw [if_neg hemit] at hch
          cases hch
      · exact ih _ _ w h
    · rw [chunkLoopF_succ, if_neg hi] at hw
      cases hw

theorem chunkLoopF_adjacent (segs : List Line) (B : ℕ) (ov : ℚ) :
    ∀ (fuel i cid t : ℕ), t + 1 < (chunkLoopF segs B ov fuel i cid).length →
      ((chunkLoopF segs B ov fuel i cid).getD (t + 1) dfltWin).1 =
        max (((chunkLoopF segs B ov fuel i cid).getD t dfltWin).1 + 1)
          (((chunkLoopF segs B ov fuel i cid).getD t dfltWin).2.1 -
            overlapCount ((((chunkLoopF segs B ov fuel i cid).getD t dfltWin).2.1) -
              ((chunkLoopF segs B ov fuel i cid).getD t dfltWin).1) ov) := by
  intro fuel
  induction fuel with
  | zero => intro i cid t ht; simp [chunkLoopF] at ht
  | succ fuel ih =>
    intro i cid t ht
    by_cases hi : i < segs.length
    · rw [chunkLoopF_succ, if_pos hi] at ht ⊢
      cases t with
      | zero =>
        simp only [List.getD_cons_zero, List.getD_cons_succ]
        simp only [List.length_cons] at ht
        rcases chunkLoopF_head segs B ov fuel
            (max (i + 1) (accEnd segs B i - overlapCount (accEnd segs B i - i) ov))
            (if hasNonSpace (joinStr (" ")
                (((segs.drop i).take (accEnd segs B i - i)).map Line.text)).data = true then
              cid + 1 else cid) with h | ⟨j', c', rest', h⟩
        · rw [h] at ht
          simp at ht
        · rw [h]
          simp only [List.getD_cons_zero]
      | succ t =>
        simp only [List.getD_cons_succ]
        simp only [List.length_cons] at ht
        exact ih _ _ t (by omega)
    · rw [chunkLoopF_succ, if_neg hi] at ht
      simp at ht

theorem next_start_cast (i j : ℕ) (ov : ℚ) (hov : 0 ≤ ov) :
    ((max (i + 1) (j - overlapCount (j - i) ov) : ℕ) : ℤ) =
      max ((i : ℤ) + 1) ((j : ℤ) - max 1 ⌊((j - i : ℕ) : ℚ) * ov⌋) := by
  have hF : 0 ≤ ⌊((j - i : ℕ) : ℚ) * ov⌋ :=
    Int.floor_nonneg.mpr (mul_nonneg (by positivity) hov)
  rw [overlapCount]
  omega

/-- C1 (amended: the accumulation rule also requires the running token
estimate to be strictly below the budget before a line is considered — a
line whose own estimate is 0 is not added to a chunk whose running estimate
already equals the budget, although the total would stay at the budget):
every window `[i, j)` the chunking loop consumes includes at least its first
line; each further line `t` of the window was accepted with the running
estimate before it strictly under the budget and the estimate through it at
or under the budget, and the window is maximal (it ends at the input or at a
line failing that rule); an emitted chunk's `start_time` is its first line's
start, its `end_time` is its last line's start, its text joins the window's
line texts; and the next window starts at
`max(i + 1, j - max(1, floor((j - i) * overlap_fraction)))`. -/
theorem chunk_windows_spec (segs : List Line) (B : ℕ) (ov : ℚ) (hB : 1 ≤ B) (hov : 0 ≤ ov) :
    (∀ w ∈ chunkWindows segs B ov,
      w.1 < w.2.1 ∧ w.2.1 ≤ segs.length ∧
      (∀ t, w.1 < t → t < w.2.1 → tokSum segs w.1 t < B ∧ tokSum segs w.1 (t + 1) ≤ B) ∧
      (w.2.1 = segs.length ∨
        ¬ (tokSum segs w.1 w.2.1 < B ∧ tokSum segs w.1 (w.2.1 + 1) ≤ B)) ∧
      (∀ ch, w.2.2 = some ch →
        ch.start_time = (segs.getD w.1 dfltLine).start_time ∧
        ch.end_time = (segs.getD (w.2.1 - 1) dfltLine).start_time ∧
        ch.text = joinStr (" ") (((segs.drop w.1).take (w.2.1 - w.1)).map Line.text))) ∧
    (∀ t, t + 1 < (chunkWindows segs B ov).length →
      ((((chunkWindows segs B ov).getD (t + 1) dfltWin).1 : ℕ) : ℤ) =
        max ((((chunkWindows segs B ov).getD t dfltWin).1 : ℤ) + 1)
          ((((chunkWindows segs B ov).getD t dfltWin).2.1 : ℤ) -
            max 1 ⌊(((((chunkWindows segs B ov).getD t dfltWin).2.1 -
                ((chunkWindows segs B ov).getD t dfltWin).1 : ℕ)) : ℚ) * ov⌋)) := by
  constructor
  · intro w hw
    exact chunkLoopF_windows segs B ov hB segs.length 0 0 w hw
  · intro t ht
    have h := chunkLoopF_adjacent segs B ov segs.length 0 0 t ht
    unfold chunkWindows
    rw [h]
    exact next_start_cast _ _ ov hov

theorem claimChunkLoopF_succ (segs : List Line) (B : ℕ) (ov : ℚ) (fuel i cid : ℕ) :
    claimChunkLoopF segs B ov (fuel + 1) i cid =
      if i < segs.length then
        (if hasNonSpace (joinStr (" ")
            (((segs.drop i).take (claimGreedyEnd segs B i - i)).map Line.text)).data = true then
          (⟨joinStr (" ") (((segs.drop i).take (claimGreedyEnd segs B i - i)).map Line.text),
            (segs.getD i dfltLine).start_time,
            (if i < claimGreedyEnd segs B i then
              (segs.getD (claimGreedyEnd segs B i - 1) dfltLine).start_time
             else (segs.getD i dfltLine).start_time), cid⟩ : TranscriptChunk) ::
            claimChunkLoopF segs B ov fuel
              (max (i + 1) (claimGreedyEnd segs B i -
                overlapCount (claimGreedyEnd segs B i - i) ov))
              (if hasNonSpace (joinStr (" ")
                  (((segs.drop i).take (claimGreedyEnd segs B i - i)).map Line.text)).data = true
               then cid + 1 else cid)
        else
          claimChunkLoopF segs B ov fuel
            (max (i + 1) (claimGreedyEnd segs B i -
              overlapCount (claimGreedyEnd segs B i - i) ov))
            (if hasNonSpace (joinStr (" ")
                (((segs.drop i).take (claimGreedyEnd segs B i - i)).map Line.text)).data = true
             then cid + 1 else cid))
      else [] := rfl

/-- C1 counterexample: with budget 1, the line `"abcd"` (estimate 1) fills
the budget exactly; the next line `"abc"` has estimate 0, so under the
claim's rule ("accumulate while the running token estimate stays at or
under the budget") it belongs to the first chunk, but the source loop exits
as soon as the running estimate reaches the budget and excludes it.  The
code's first chunk is `"abcd"`, the claim's is `"abcd abc"`, and the chunk
lists differ. -/
theorem chunk_claim_greedy_counterexample :
    accEnd [⟨"abcd", 0⟩, ⟨"abc", 7⟩] 1 0 = 1 ∧
    claimGreedyEnd [⟨"abcd", 0⟩, ⟨"abc", 7⟩] 1 0 = 2 ∧
    chunkSegments [⟨"abcd", 0⟩, ⟨"abc", 7⟩] 1 (1/8) =
      [⟨"abcd", 0, 0, 0⟩, ⟨"abc", 7, 7, 1⟩] ∧
    claimChunks [⟨"abcd", 0⟩, ⟨"abc", 7⟩] 1 (1/8) =
      [⟨"abcd abc", 0, 7, 0⟩, ⟨"abc", 7, 7, 1⟩] ∧
    chunkSegments [⟨"abcd", 0⟩, ⟨"abc", 7⟩] 1 (1/8) ≠
      claimChunks [⟨"abcd", 0⟩, ⟨"abc", 7⟩] 1 (1/8) := by
  have hoc1 : overlapCount 1 (1/8) = 1 := by
    rw [overlapCount]
    norm_num
  have hoc2 : overlapCount 2 (1/8) = 1 := by
    rw [overlapCount]
    norm_num
  have hacc0 : accEnd [⟨"abcd", 0⟩, ⟨"abc", 7⟩] 1 0 = 1 := by decide
  have hg0 : claimGreedyEnd [⟨"abcd", 0⟩, ⟨"abc", 7⟩] 1 0 = 2 := by decide
  have hcode : chunkSegments [⟨"abcd", 0⟩, ⟨"abc", 7⟩] 1 (1/8) =
      [⟨"abcd", 0, 0, 0⟩, ⟨"abc", 7, 7, 1⟩] := by
    rw [chunkSegments, chunkWindows]
    show (chunkLoopF [⟨"abcd", 0⟩, ⟨"abc", 7⟩] 1 (1/8) (1 + 1) 0 0).filterMap
      (fun w => w.2.2) = _
    rw [chunkLoopF_succ, if_pos (by norm_num), hacc0]
    norm_num [hoc1]
    decide
  have hclaim : claimChunks [⟨"abcd", 0⟩, ⟨"abc", 7⟩] 1 (1/8) =
      [⟨"abcd abc", 0, 7, 0⟩, ⟨"abc", 7, 7, 1⟩] := by
    rw [claimChunks]
    show claimChunkLoopF [⟨"abcd", 0⟩, ⟨"abc", 7⟩] 1 (1/8) (1 + 1) 0 0 = _
    rw [claimChunkLoopF_succ, if_pos (by norm_num), hg0]
    norm_num [hoc2]
    decide
  refine ⟨hacc0, hg0, hcode, hclaim, ?_⟩
  rw [hcode, hclaim]
  decide

/-- Witness for C1: a single 8-character line forms a window `[0, 1)` whose
emitted chunk starts and ends at the line's start time and joins its text. -/
theorem chunk_windows_spec_witness :
    (⟨"abcdefgh", 0, 0, 0⟩ : TranscriptChunk).start_time =
      (([⟨"abcdefgh", 0⟩] : List Line).getD 0 dfltLine).start_time ∧
    (⟨"abcdefgh", 0, 0, 0⟩ : TranscriptChunk).end_time =
      (([⟨"abcdefgh", 0⟩] : List Line).getD (1 - 1) dfltLine).start_time ∧
    (⟨"abcdefgh", 0, 0, 0⟩ : TranscriptChunk).text =
      joinStr (" ") (((([⟨"abcdefgh", 0⟩] : List Line).drop 0).take (1 - 0)).map Line.text) := by
  have hwacc : accEnd [⟨"abcdefgh", 0⟩] 1 0 = 1 := by decide
  have hw : chunkWindows [⟨"abcdefgh", 0⟩] 1 0 = [(0, 1, some ⟨"abcdefgh", 0, 0, 0⟩)] := by
    rw [chunkWindows]
    show chunkLoopF [⟨"abcdefgh", 0⟩] 1 0 (0 + 1) 0 0 = _
    rw [chunkLoopF_succ, if_pos (by norm_num), hwacc]
    decide
  exact ((chunk_windows_spec [⟨"abcdefgh", 0⟩] 1 0 (by decide) (by norm_num)).1
    (0, 1, some ⟨"abcdefgh", 0, 0, 0⟩) (by rw [hw]; exact List.mem_singleton.mpr rfl)).2.2.2.2
    ⟨"abcdefgh", 0, 0, 0⟩ rfl

end TalkToTube
